import Mathlib

/-!
# Verification of the image-cad-to-svg raster-to-vector pipeline

Shallow embedding of the repository's TypeScript sources:

* `src/svg-refiner.ts` — distance transform, rasterization, accuracy
  scoring, snap / spurious-removal / gap-fill strategies, refinement loop;
* `src/image-processor.ts` — Gaussian blur, edge detection dispatch;
* the contour-detector module — Moore / Suzuki / marching-squares tracing
  and the contour detection dispatch;
* the API route — 1-D Gaussian blur and Zhang–Suen thinning;
* the SVG generator — `pointsToPathString` and `toFixed`.

Conventions: byte buffers (`Uint8ClampedArray`) are modelled as functions
`ℕ → ℕ` indexed row-major (`y * width + x`); float buffers (`Float32Array`)
as `ℕ → ℚ`; JavaScript numbers as `ℚ` where the source only performs
field operations and comparisons, and as `ℝ` where it calls `Math.exp` /
`Math.sqrt`.  `Math.round x` is `⌊x + 1/2⌋`.  Loops are `List.foldl` over
the iteration ranges of the source; `while` loops carry explicit fuel that
provably dominates the source's own termination bound.
-/

namespace CadToSvg

/-- JavaScript `Math.round` on rationals: round half towards +∞. -/
def jsRound (q : ℚ) : ℤ := ⌊q + 1/2⌋

/-- A 2-D point (source `Point`, float coordinates modelled as `ℚ`). -/
structure Pt where
  x : ℚ
  y : ℚ
deriving DecidableEq

/-- RGBA color (source `Color`). -/
structure Color where
  r : ℕ
  g : ℕ
  b : ℕ
  a : ℕ
deriving DecidableEq

/-- Source `PathData`: a polyline with styling carried through refinement. -/
structure PathData where
  points : List Pt
  color : Color
  strokeWidth : ℚ
  closed : Bool
  id : Option String := none
deriving DecidableEq

/-- Row-major pixel coordinates [(0,0),(0,1),…]: `(y, x)` pairs in the order
of the source's nested `for (y) for (x)` loops. -/
def rowMajor (w h : ℕ) : List (ℕ × ℕ) :=
  (List.range h).flatMap (fun y => (List.range w).map (fun x => (y, x)))

theorem mem_rowMajor {w h : ℕ} {p : ℕ × ℕ} (hp : p ∈ rowMajor w h) :
    p.1 < h ∧ p.2 < w := by
  simp only [rowMajor, List.mem_flatMap, List.mem_map, List.mem_range] at hp
  obtain ⟨y, hy, x, hx, rfl⟩ := hp
  exact ⟨hy, hx⟩

theorem idx_lt_size {w h y x : ℕ} (hy : y < h) (hx : x < w) :
    y * w + x < w * h := by
  calc y * w + x < y * w + w := by omega
    _ = (y + 1) * w := by ring
    _ ≤ h * w := Nat.mul_le_mul_right w hy
    _ = w * h := Nat.mul_comm h w

/-- A `foldl` preserves any invariant preserved by each step. -/
theorem foldl_invariant {α β : Type*} (P : α → Prop) (f : α → β → α)
    (l : List β) (a : α) (h0 : P a)
    (hstep : ∀ a b, b ∈ l → P a → P (f a b)) : P (l.foldl f a) := by
  induction l generalizing a with
  | nil => exact h0
  | cons b t ih =>
      exact ih (f a b) (hstep a b (List.mem_cons_self b t) h0)
        (fun a' b' hb' => hstep a' b' (List.mem_cons_of_mem b hb'))

-- ============================================================================
-- Distance transform (svg-refiner.ts, computeDistanceTransform)
-- ============================================================================

/-- The source's `1.414` chamfer diagonal weight. -/
def sqrt2c : ℚ := 1414 / 1000

/-- Initialization loop of `computeDistanceTransform`:
0 for edge pixels (`edges[i] > 0`), `INF = width + height` otherwise. -/
def distInit (edges : ℕ → ℕ) (w h : ℕ) : ℕ → ℚ :=
  fun i => if i < w * h then (if 0 < edges i then 0 else (w : ℚ) + h) else 0

/-- One cell of the forward pass (top-left to bottom-right) of
`computeDistanceTransform`. -/
def dtForwardStep (w : ℕ) (d : ℕ → ℚ) (y x : ℕ) : ℕ → ℚ :=
  let idx := y * w + x
  if d idx = 0 then d
  else
    let v := d idx
    let v := if 0 < y then min v (d ((y - 1) * w + x) + 1) else v
    let v := if 0 < x then min v (d (y * w + (x - 1)) + 1) else v
    let v := if 0 < y ∧ 0 < x then min v (d ((y - 1) * w + (x - 1)) + sqrt2c) else v
    let v := if 0 < y ∧ x + 1 < w then min v (d ((y - 1) * w + (x + 1)) + sqrt2c) else v
    Function.update d idx v

/-- One cell of the backward pass (bottom-right to top-left) of
`computeDistanceTransform`. -/
def dtBackwardStep (w h : ℕ) (d : ℕ → ℚ) (y x : ℕ) : ℕ → ℚ :=
  let idx := y * w + x
  if d idx = 0 then d
  else
    let v := d idx
    let v := if y + 1 < h then min v (d ((y + 1) * w + x) + 1) else v
    let v := if x + 1 < w then min v (d (y * w + (x + 1)) + 1) else v
    let v := if y + 1 < h ∧ x + 1 < w then min v (d ((y + 1) * w + (x + 1)) + sqrt2c) else v
    let v := if y + 1 < h ∧ 0 < x then min v (d ((y + 1) * w + (x - 1)) + sqrt2c) else v
    Function.update d idx v

/-- `computeDistanceTransform` of svg-refiner.ts: two-pass chamfer distance
transform of a binary edge image. -/
def computeDistanceTransform (edges : ℕ → ℕ) (w h : ℕ) : ℕ → ℚ :=
  let fwd := (rowMajor w h).foldl (fun d p => dtForwardStep w d p.1 p.2)
    (distInit edges w h)
  ((rowMajor w h).reverse).foldl (fun d p => dtBackwardStep w h d p.1 p.2) fwd

theorem one_le_ite_min {P : Prop} [Decidable P] {v c : ℚ} (hv : 1 ≤ v)
    (hc : P → 1 ≤ c) : 1 ≤ if P then min v c else v := by
  split
  · next hp => exact le_min hv (hc hp)
  · exact hv

/-- The chamfer invariant: in-range source cells hold `0`, in-range
non-source cells hold at least `1`.  (Instantiated pointwise below.) -/
def DtInv (edges : ℕ → ℕ) (w h : ℕ) (d : ℕ → ℚ) : Prop :=
  ∀ i, i < w * h → if 0 < edges i then d i = 0 else 1 ≤ d i

theorem DtInv.nonneg {edges : ℕ → ℕ} {w h : ℕ} {d : ℕ → ℚ}
    (hd : DtInv edges w h d) {j : ℕ} (hj : j < w * h) : 0 ≤ d j := by
  have := hd j hj
  split at this
  · exact le_of_eq this.symm
  · linarith

theorem one_le_sqrt2c : (1 : ℚ) ≤ sqrt2c := by norm_num [sqrt2c]

theorem dtForwardStep_inv (edges : ℕ → ℕ) (w h : ℕ) (d : ℕ → ℚ) (y x : ℕ)
    (hy : y < h) (hx : x < w) (hd : DtInv edges w h d) :
    DtInv edges w h (dtForwardStep w d y x) := by
  have hidx : y * w + x < w * h := idx_lt_size hy hx
  unfold dtForwardStep
  by_cases h0 : d (y * w + x) = 0
  · simpa [h0] using hd
  · have hsrc : ¬ 0 < edges (y * w + x) := by
      intro hs
      exact h0 (by simpa [hs] using hd _ hidx)
    have h1 : (1 : ℚ) ≤ d (y * w + x) := by simpa [hsrc] using hd _ hidx
    simp only [h0, if_false]
    intro i hi
    rcases eq_or_ne i (y * w + x) with rfl | hne
    · rw [Function.update_same, if_neg hsrc]
      refine one_le_ite_min (one_le_ite_min (one_le_ite_min
        (one_le_ite_min h1 ?_) ?_) ?_) ?_
      · intro hc
        have hj : (y - 1) * w + x < w * h := idx_lt_size (by omega) hx
        have := hd.nonneg hj
        linarith
      · intro hc
        have hj : y * w + (x - 1) < w * h := idx_lt_size hy (by omega)
        have := hd.nonneg hj
        linarith
      · intro hc
        have hj : (y - 1) * w + (x - 1) < w * h := idx_lt_size (by omega) (by omega)
        have := hd.nonneg hj
        have := one_le_sqrt2c
        linarith
      · intro hc
        have hj : (y - 1) * w + (x + 1) < w * h := idx_lt_size (by omega) hc.2
        have := hd.nonneg hj
        have := one_le_sqrt2c
        linarith
    · rw [Function.update_noteq hne]
      exact hd i hi

theorem dtBackwardStep_inv (edges : ℕ → ℕ) (w h : ℕ) (d : ℕ → ℚ) (y x : ℕ)
    (hy : y < h) (hx : x < w) (hd : DtInv edges w h d) :
    DtInv edges w h (dtBackwardStep w h d y x) := by
  have hidx : y * w + x < w * h := idx_lt_size hy hx
  unfold dtBackwardStep
  by_cases h0 : d (y * w + x) = 0
  · simpa [h0] using hd
  · have hsrc : ¬ 0 < edges (y * w + x) := by
      intro hs
      exact h0 (by simpa [hs] using hd _ hidx)
    have h1 : (1 : ℚ) ≤ d (y * w + x) := by simpa [hsrc] using hd _ hidx
    simp only [h0, if_false]
    intro i hi
    rcases eq_or_ne i (y * w + x) with rfl | hne
    · rw [Function.update_same, if_neg hsrc]
      refine one_le_ite_min (one_le_ite_min (one_le_ite_min
        (one_le_ite_min h1 ?_) ?_) ?_) ?_
      · intro hc
        have hj : (y + 1) * w + x < w * h := idx_lt_size hc hx
        have := hd.nonneg hj
        linarith
      · intro hc
        have hj : y * w + (x + 1) < w * h := idx_lt_size hy hc
        have := hd.nonneg hj
        linarith
      · intro hc
        have hj : (y + 1) * w + (x + 1) < w * h := idx_lt_size hc.1 hc.2
        have := hd.nonneg hj
        have := one_le_sqrt2c
        linarith
      · intro hc
        have hj : (y + 1) * w + (x - 1) < w * h := idx_lt_size hc.1 (by omega)
        have := hd.nonneg hj
        have := one_le_sqrt2c
        linarith
    · rw [Function.update_noteq hne]
      exact hd i hi

theorem computeDistanceTransform_inv (edges : ℕ → ℕ) (w h : ℕ) :
    DtInv edges w h (computeDistanceTransform edges w h) := by
  unfold computeDistanceTransform
  apply foldl_invariant (DtInv edges w h)
  · apply foldl_invariant (DtInv edges w h)
    · intro i hi
      unfold distInit
      rw [if_pos hi]
      split
      · rfl
      · have hwh : 0 < w * h := lt_of_le_of_lt (Nat.zero_le i) hi
        have hw : 0 < w := Nat.pos_of_ne_zero (by rintro rfl; simp at hwh)
        have hh : 0 < h := Nat.pos_of_ne_zero (by rintro rfl; simp at hwh)
        have : (1 : ℚ) + 1 ≤ (w : ℚ) + h := by
          have hw' : (1 : ℚ) ≤ w := by exact_mod_cast hw
          have hh' : (1 : ℚ) ≤ h := by exact_mod_cast hh
          linarith
        linarith
    · intro d p hp hinv
      obtain ⟨hy, hx⟩ := mem_rowMajor hp
      exact dtForwardStep_inv edges w h d p.1 p.2 hy hx hinv
  · intro d p hp hinv
    rw [List.mem_reverse] at hp
    obtain ⟨hy, hx⟩ := mem_rowMajor hp
    exact dtBackwardStep_inv edges w h d p.1 p.2 hy hx hinv

/-- **C9.**  Every value of the distance transform computed by
`computeDistanceTransform` is non-negative, and an in-range cell holds `0`
exactly when the corresponding mask pixel is a source pixel
(mask value `> 0`). -/
theorem computeDistanceTransform_nonneg_zero_iff (edges : ℕ → ℕ) (w h : ℕ)
    (i : ℕ) (hi : i < w * h) :
    0 ≤ computeDistanceTransform edges w h i ∧
      (computeDistanceTransform edges w h i = 0 ↔ 0 < edges i) := by
  have hinv := computeDistanceTransform_inv edges w h
  have hin := hinv i hi
  refine ⟨hinv.nonneg hi, ?_⟩
  constructor
  · intro h0
    by_contra hs
    rw [if_neg hs] at hin
    rw [h0] at hin
    linarith
  · intro hs
    rwa [if_pos hs] at hin

/-- Concrete 2×2 mask for the C9 witness: one source pixel at index 0. -/
def c9EdgesEx : ℕ → ℕ := fun i => if i = 0 then 255 else 0

/-- **C9 witness**: the theorem applied at the concrete 2×2 mask. -/
theorem computeDistanceTransform_nonneg_zero_iff_witness :
    (3 < 2 * 2) ∧
      (0 ≤ computeDistanceTransform c9EdgesEx 2 2 3 ∧
        (computeDistanceTransform c9EdgesEx 2 2 3 = 0 ↔ 0 < c9EdgesEx 3)) :=
  ⟨by decide, computeDistanceTransform_nonneg_zero_iff c9EdgesEx 2 2 3 (by decide)⟩

-- ============================================================================
-- Accuracy scoring (svg-refiner.ts, computeAccuracy)
-- ============================================================================

/-- Source `RefinementScore`. -/
structure RefinementScore where
  precision : ℚ
  «recall» : ℚ
  f1Score : ℚ
  meanDistanceError : ℚ
  matchedPixels : ℕ
  totalSvgPixels : ℕ
  totalRefPixels : ℕ
deriving DecidableEq

/-- Accumulator of the single scan loop inside `computeAccuracy`. -/
structure AccCounters where
  totalSvgPixels : ℕ
  totalRefPixels : ℕ
  svgMatchedPixels : ℕ
  refMatchedPixels : ℕ
  totalDistance : ℚ
deriving DecidableEq

/-- Loop body of `computeAccuracy` at pixel `i`. -/
def accStep (referenceEdges svgEdges : ℕ → ℕ) (refDT svgDT : ℕ → ℚ)
    (tol : ℚ) (c : AccCounters) (i : ℕ) : AccCounters :=
  let c :=
    if 0 < svgEdges i then
      { c with
        totalSvgPixels := c.totalSvgPixels + 1
        totalDistance := c.totalDistance + refDT i
        svgMatchedPixels :=
          if refDT i ≤ tol then c.svgMatchedPixels + 1 else c.svgMatchedPixels }
    else c
  if 0 < referenceEdges i then
    { c with
      totalRefPixels := c.totalRefPixels + 1
      refMatchedPixels :=
        if svgDT i ≤ tol then c.refMatchedPixels + 1 else c.refMatchedPixels }
  else c

/-- `computeAccuracy` of svg-refiner.ts: compare an SVG rasterization against
the reference edge map through the two distance transforms. -/
def computeAccuracy (referenceEdges svgEdges : ℕ → ℕ) (w h : ℕ)
    (distanceTolerance : ℚ := 2) : RefinementScore :=
  let refDT := computeDistanceTransform referenceEdges w h
  let svgDT := computeDistanceTransform svgEdges w h
  let c := (List.range (w * h)).foldl
    (accStep referenceEdges svgEdges refDT svgDT distanceTolerance)
    ⟨0, 0, 0, 0, 0⟩
  let precision : ℚ :=
    if 0 < c.totalSvgPixels then (c.svgMatchedPixels : ℚ) / c.totalSvgPixels else 0
  let «recall» : ℚ :=
    if 0 < c.totalRefPixels then (c.refMatchedPixels : ℚ) / c.totalRefPixels else 0
  let f1Score : ℚ :=
    if 0 < precision + «recall» then 2 * (precision * «recall») / (precision + «recall»)
    else 0
  let meanDistanceError : ℚ :=
    if 0 < c.totalSvgPixels then c.totalDistance / c.totalSvgPixels else 0
  { precision := precision
    «recall» := «recall»
    f1Score := f1Score
    meanDistanceError := meanDistanceError
    matchedPixels := c.svgMatchedPixels
    totalSvgPixels := c.totalSvgPixels
    totalRefPixels := c.totalRefPixels }

/-- Modelled from the spec: `|S|`, the number of set pixels of a mask. -/
def specPixelCount (M : ℕ → ℕ) (w h : ℕ) : ℕ :=
  (List.range (w * h)).countP (fun i => decide (0 < M i))

/-- Modelled from the spec: `|{p ∈ M : dt(p) ≤ τ}|`, the number of set
pixels of a mask whose distance-transform value is within tolerance. -/
def specMatchedCount (M : ℕ → ℕ) (dt : ℕ → ℚ) (τ : ℚ) (w h : ℕ) : ℕ :=
  (List.range (w * h)).countP (fun i => decide (0 < M i ∧ dt i ≤ τ))

/-- Modelled from the spec: `Σ_{p ∈ M} dt(p)`, the summed distance-transform
values over the set pixels of a mask. -/
def specDistanceSum (M : ℕ → ℕ) (dt : ℕ → ℚ) (w h : ℕ) : ℚ :=
  (((List.range (w * h)).filter (fun i => decide (0 < M i))).map dt).sum

theorem accStep_totalSvg (R S : ℕ → ℕ) (rDT sDT : ℕ → ℚ) (τ : ℚ)
    (c : AccCounters) (i : ℕ) :
    (accStep R S rDT sDT τ c i).totalSvgPixels
      = c.totalSvgPixels + (if 0 < S i then 1 else 0) := by
  simp only [accStep]
  split_ifs <;> rfl

theorem accStep_totalRef (R S : ℕ → ℕ) (rDT sDT : ℕ → ℚ) (τ : ℚ)
    (c : AccCounters) (i : ℕ) :
    (accStep R S rDT sDT τ c i).totalRefPixels
      = c.totalRefPixels + (if 0 < R i then 1 else 0) := by
  simp only [accStep]
  split_ifs <;> rfl

theorem accStep_svgMatched (R S : ℕ → ℕ) (rDT sDT : ℕ → ℚ) (τ : ℚ)
    (c : AccCounters) (i : ℕ) :
    (accStep R S rDT sDT τ c i).svgMatchedPixels
      = c.svgMatchedPixels + (if 0 < S i ∧ rDT i ≤ τ then 1 else 0) := by
  simp only [accStep]
  split_ifs <;> first | rfl | (exfalso; tauto)

theorem accStep_refMatched (R S : ℕ → ℕ) (rDT sDT : ℕ → ℚ) (τ : ℚ)
    (c : AccCounters) (i : ℕ) :
    (accStep R S rDT sDT τ c i).refMatchedPixels
      = c.refMatchedPixels + (if 0 < R i ∧ sDT i ≤ τ then 1 else 0) := by
  simp only [accStep]
  split_ifs <;> first | rfl | (exfalso; tauto)

theorem accStep_totalDistance (R S : ℕ → ℕ) (rDT sDT : ℕ → ℚ) (τ : ℚ)
    (c : AccCounters) (i : ℕ) :
    (accStep R S rDT sDT τ c i).totalDistance
      = c.totalDistance + (if 0 < S i then rDT i else 0) := by
  simp only [accStep]
  split_ifs <;> simp

theorem accStep_foldl_spec (R S : ℕ → ℕ) (rDT sDT : ℕ → ℚ) (τ : ℚ)
    (l : List ℕ) (c₀ : AccCounters) :
    (l.foldl (accStep R S rDT sDT τ) c₀).totalSvgPixels
        = c₀.totalSvgPixels + l.countP (fun i => decide (0 < S i)) ∧
      (l.foldl (accStep R S rDT sDT τ) c₀).totalRefPixels
        = c₀.totalRefPixels + l.countP (fun i => decide (0 < R i)) ∧
      (l.foldl (accStep R S rDT sDT τ) c₀).svgMatchedPixels
        = c₀.svgMatchedPixels + l.countP (fun i => decide (0 < S i ∧ rDT i ≤ τ)) ∧
      (l.foldl (accStep R S rDT sDT τ) c₀).refMatchedPixels
        = c₀.refMatchedPixels + l.countP (fun i => decide (0 < R i ∧ sDT i ≤ τ)) ∧
      (l.foldl (accStep R S rDT sDT τ) c₀).totalDistance
        = c₀.totalDistance + ((l.filter (fun i => decide (0 < S i))).map rDT).sum := by
  induction l generalizing c₀ with
  | nil => simp
  | cons b t ih =>
      obtain ⟨h1, h2, h3, h4, h5⟩ := ih (accStep R S rDT sDT τ c₀ b)
      simp only [List.foldl_cons, List.countP_cons, List.filter_cons]
      refine ⟨?_, ?_, ?_, ?_, ?_⟩
      · rw [h1, accStep_totalSvg]
        by_cases hs : 0 < S b <;> simp [hs] <;> omega
      · rw [h2, accStep_totalRef]
        by_cases hr : 0 < R b <;> simp [hr] <;> omega
      · rw [h3, accStep_svgMatched]
        by_cases hs : 0 < S b ∧ rDT b ≤ τ <;> simp [hs] <;> omega
      · rw [h4, accStep_refMatched]
        by_cases hr : 0 < R b ∧ sDT b ≤ τ <;> simp [hr] <;> omega
      · rw [h5, accStep_totalDistance]
        by_cases hs : 0 < S b <;> simp [hs] <;> ring

/-- The scan loop of `computeAccuracy`, named for reasoning. -/
def accCounters (R S : ℕ → ℕ) (w h : ℕ) (τ : ℚ) : AccCounters :=
  (List.range (w * h)).foldl
    (accStep R S (computeDistanceTransform R w h) (computeDistanceTransform S w h) τ)
    ⟨0, 0, 0, 0, 0⟩

theorem accCounters_spec (R S : ℕ → ℕ) (w h : ℕ) (τ : ℚ) :
    (accCounters R S w h τ).totalSvgPixels = specPixelCount S w h ∧
      (accCounters R S w h τ).totalRefPixels = specPixelCount R w h ∧
      (accCounters R S w h τ).svgMatchedPixels
        = specMatchedCount S (computeDistanceTransform R w h) τ w h ∧
      (accCounters R S w h τ).refMatchedPixels
        = specMatchedCount R (computeDistanceTransform S w h) τ w h ∧
      (accCounters R S w h τ).totalDistance
        = specDistanceSum S (computeDistanceTransform R w h) w h := by
  have hall := accStep_foldl_spec R S
    (computeDistanceTransform R w h) (computeDistanceTransform S w h) τ
    (List.range (w * h)) ⟨0, 0, 0, 0, 0⟩
  simpa [accCounters, specPixelCount, specMatchedCount, specDistanceSum]
    using hall

theorem computeAccuracy_precision_eq (R S : ℕ → ℕ) (w h : ℕ) (τ : ℚ) :
    (computeAccuracy R S w h τ).precision
      = (if 0 < (accCounters R S w h τ).totalSvgPixels then
          ((accCounters R S w h τ).svgMatchedPixels : ℚ)
            / (accCounters R S w h τ).totalSvgPixels
        else 0) := rfl

theorem computeAccuracy_recall_eq (R S : ℕ → ℕ) (w h : ℕ) (τ : ℚ) :
    (computeAccuracy R S w h τ).«recall»
      = (if 0 < (accCounters R S w h τ).totalRefPixels then
          ((accCounters R S w h τ).refMatchedPixels : ℚ)
            / (accCounters R S w h τ).totalRefPixels
        else 0) := rfl

theorem computeAccuracy_f1_eq (R S : ℕ → ℕ) (w h : ℕ) (τ : ℚ) :
    (computeAccuracy R S w h τ).f1Score
      = (if 0 < (computeAccuracy R S w h τ).precision
              + (computeAccuracy R S w h τ).«recall» then
          2 * ((computeAccuracy R S w h τ).precision
              * (computeAccuracy R S w h τ).«recall»)
            / ((computeAccuracy R S w h τ).precision
              + (computeAccuracy R S w h τ).«recall»)
        else 0) := rfl

theorem computeAccuracy_mde_eq (R S : ℕ → ℕ) (w h : ℕ) (τ : ℚ) :
    (computeAccuracy R S w h τ).meanDistanceError
      = (if 0 < (accCounters R S w h τ).totalSvgPixels then
          (accCounters R S w h τ).totalDistance
            / (accCounters R S w h τ).totalSvgPixels
        else 0) := rfl

theorem matched_le_pixelCount (M : ℕ → ℕ) (dt : ℕ → ℚ) (τ : ℚ) (w h : ℕ) :
    specMatchedCount M dt τ w h ≤ specPixelCount M w h := by
  apply List.countP_mono_left
  intro i _ hi
  simp only [decide_eq_true_eq] at hi ⊢
  exact hi.1

theorem ratio_bounds {a b : ℕ} (hab : a ≤ b) :
    0 ≤ (if 0 < b then (a : ℚ) / b else 0) ∧
      (if 0 < b then (a : ℚ) / b else 0) ≤ 1 := by
  split
  · next hb =>
      have hb' : (0 : ℚ) < b := by exact_mod_cast hb
      constructor
      · positivity
      · rw [div_le_one hb']
        exact_mod_cast hab
  · norm_num

/-- **C1.**  `computeAccuracy` returns `precision = svgMatched / |S|`,
`recall = refMatched / |R|`, `F1 = 2·P·R/(P+R)` and
`meanDistanceError = (Σ_{p∈S} distTransform(R)(p)) / |S|`, with every
denominator-zero case yielding zero; consequently precision, recall and F1
all lie in `[0, 1]`, and `F1 = 0` iff `precision = 0` or `recall = 0`. -/
theorem computeAccuracy_spec (R S : ℕ → ℕ) (w h : ℕ) (τ : ℚ) :
    ((computeAccuracy R S w h τ).precision
        = (if 0 < specPixelCount S w h then
            (specMatchedCount S (computeDistanceTransform R w h) τ w h : ℚ)
              / specPixelCount S w h
          else 0) ∧
      (computeAccuracy R S w h τ).«recall»
        = (if 0 < specPixelCount R w h then
            (specMatchedCount R (computeDistanceTransform S w h) τ w h : ℚ)
              / specPixelCount R w h
          else 0) ∧
      (computeAccuracy R S w h τ).f1Score
        = (if 0 < (computeAccuracy R S w h τ).precision
                + (computeAccuracy R S w h τ).«recall» then
            2 * ((computeAccuracy R S w h τ).precision
                * (computeAccuracy R S w h τ).«recall»)
              / ((computeAccuracy R S w h τ).precision
                + (computeAccuracy R S w h τ).«recall»)
          else 0) ∧
      (computeAccuracy R S w h τ).meanDistanceError
        = (if 0 < specPixelCount S w h then
            specDistanceSum S (computeDistanceTransform R w h) w h
              / specPixelCount S w h
          else 0)) ∧
      (0 ≤ (computeAccuracy R S w h τ).precision ∧
        (computeAccuracy R S w h τ).precision ≤ 1 ∧
        0 ≤ (computeAccuracy R S w h τ).«recall» ∧
        (computeAccuracy R S w h τ).«recall» ≤ 1 ∧
        0 ≤ (computeAccuracy R S w h τ).f1Score ∧
        (computeAccuracy R S w h τ).f1Score ≤ 1) ∧
      ((computeAccuracy R S w h τ).f1Score = 0 ↔
        (computeAccuracy R S w h τ).precision = 0 ∨
          (computeAccuracy R S w h τ).«recall» = 0) := by
  obtain ⟨h1, h2, h3, h4, h5⟩ := accCounters_spec R S w h τ
  have hprec := computeAccuracy_precision_eq R S w h τ
  have hrec := computeAccuracy_recall_eq R S w h τ
  have hf1 := computeAccuracy_f1_eq R S w h τ
  have hmde := computeAccuracy_mde_eq R S w h τ
  rw [h1, h3] at hprec
  rw [h2, h4] at hrec
  rw [h1, h5] at hmde
  have hpb := ratio_bounds
    (matched_le_pixelCount S (computeDistanceTransform R w h) τ w h)
  have hrb := ratio_bounds
    (matched_le_pixelCount R (computeDistanceTransform S w h) τ w h)
  rw [← hprec] at hpb
  rw [← hrec] at hrb
  obtain ⟨hp0, hp1⟩ := hpb
  obtain ⟨hr0, hr1⟩ := hrb
  have hf0 : 0 ≤ (computeAccuracy R S w h τ).f1Score := by
    rw [hf1]
    split
    · next hd => exact div_nonneg (by nlinarith [mul_nonneg hp0 hr0]) (le_of_lt hd)
    · exact le_refl 0
  refine ⟨⟨hprec, hrec, hf1, hmde⟩, ⟨hp0, hp1, hr0, hr1, hf0, ?_⟩, ?_⟩
  · rw [hf1]
    split
    · next hd =>
        rw [div_le_one hd]
        nlinarith [mul_nonneg hp0 (sub_nonneg.2 hr1), mul_nonneg hr0 (sub_nonneg.2 hp1)]
    · norm_num
  · rw [hf1]
    split
    · next hd =>
        rw [div_eq_zero_iff]
        constructor
        · intro hc
          rcases hc with hc | hc
          · have := mul_eq_zero.mp (by linarith : (computeAccuracy R S w h τ).precision * (computeAccuracy R S w h τ).«recall» = 0)
            exact this
          · exact absurd hc (ne_of_gt hd)
        · intro hc
          left
          rcases hc with hc | hc <;> rw [hc] <;> ring
    · next hd =>
        have hpz : (computeAccuracy R S w h τ).precision = 0 := by linarith
        simp [hpz]

-- ============================================================================
-- Snap-to-edge (svg-refiner.ts, snapPathsToEdges)
-- ============================================================================

/-- The `(dy, dx)` offsets of a square search loop of radius `r`, in the
source's scan order (`dy` outer from `-r` to `r`, `dx` inner). -/
def squareOffsets (r : ℕ) : List (ℤ × ℤ) :=
  ((List.range (2 * r + 1)).map (fun k => (k : ℤ) - r)).flatMap
    (fun dy => ((List.range (2 * r + 1)).map (fun k => (k : ℤ) - r)).map
      (fun dx => (dy, dx)))

/-- Inner search of `snapPathsToEdges` for one point: track the nearest
reference pixel in the square (squared distance; `none` plays `Infinity`). -/
def snapSearchStep (ref : ℕ → ℕ) (w h : ℕ) (px py : ℤ)
    (st : Option ℤ × ℚ × ℚ) (p : ℤ × ℤ) : Option ℤ × ℚ × ℚ :=
  let dy := p.1
  let dx := p.2
  let nx := px + dx
  let ny := py + dy
  if nx < 0 ∨ (w : ℤ) ≤ nx ∨ ny < 0 ∨ (h : ℤ) ≤ ny then st
  else if 0 < ref ((ny * w + nx).toNat) then
    let dist := dx * dx + dy * dy
    match st.1 with
    | none => (some dist, (nx : ℚ), (ny : ℚ))
    | some d => if dist < d then (some dist, (nx : ℚ), (ny : ℚ)) else st
  else st

/-- Per-point body of `snapPathsToEdges`: keep a point already on a
reference pixel, else snap it to the nearest reference pixel in the square
of radius `snapRadius` (unchanged when none exists). -/
def snapPoint (ref : ℕ → ℕ) (w h : ℕ) (snapRadius : ℕ) (pt : Pt) : Pt :=
  let px : ℤ := jsRound pt.x
  let py : ℤ := jsRound pt.y
  if 0 ≤ px ∧ px < (w : ℤ) ∧ 0 ≤ py ∧ py < (h : ℤ) ∧
      0 < ref ((py * w + px).toNat) then pt
  else
    let best := (squareOffsets snapRadius).foldl
      (snapSearchStep ref w h px py) (none, pt.x, pt.y)
    { x := best.2.1, y := best.2.2 }

/-- `snapPathsToEdges` of svg-refiner.ts. -/
def snapPathsToEdges (paths : List PathData) (ref : ℕ → ℕ) (w h : ℕ)
    (snapRadius : ℕ := 3) : List PathData :=
  paths.map (fun path =>
    { path with points := path.points.map (snapPoint ref w h snapRadius) })

/-- "The rounded coordinates already lie on a reference edge pixel". -/
def OnRefEdge (ref : ℕ → ℕ) (w h : ℕ) (pt : Pt) : Prop :=
  0 ≤ jsRound pt.x ∧ jsRound pt.x < (w : ℤ) ∧ 0 ≤ jsRound pt.y ∧
    jsRound pt.y < (h : ℤ) ∧
    0 < ref ((jsRound pt.y * w + jsRound pt.x).toNat)

instance (ref : ℕ → ℕ) (w h : ℕ) (pt : Pt) :
    Decidable (OnRefEdge ref w h pt) := by unfold OnRefEdge; infer_instance

/-- "No reference edge pixel exists within the snap radius": every in-bounds
cell of the search square is unset. -/
def NoRefNearby (ref : ℕ → ℕ) (w h : ℕ) (r : ℕ) (pt : Pt) : Prop :=
  ∀ p ∈ squareOffsets r,
    ¬ (jsRound pt.x + p.2 < 0 ∨ (w : ℤ) ≤ jsRound pt.x + p.2 ∨
        jsRound pt.y + p.1 < 0 ∨ (h : ℤ) ≤ jsRound pt.y + p.1) →
    ref (((jsRound pt.y + p.1) * w + (jsRound pt.x + p.2)).toNat) = 0

instance (ref : ℕ → ℕ) (w h r : ℕ) (pt : Pt) :
    Decidable (NoRefNearby ref w h r pt) := by
  unfold NoRefNearby; infer_instance

theorem snapPoint_onEdge (ref : ℕ → ℕ) (w h r : ℕ) (pt : Pt)
    (hpt : OnRefEdge ref w h pt) : snapPoint ref w h r pt = pt := by
  unfold OnRefEdge at hpt
  simp only [snapPoint]
  rw [if_pos hpt]

theorem snapPoint_noNearby (ref : ℕ → ℕ) (w h r : ℕ) (pt : Pt)
    (hpt : NoRefNearby ref w h r pt) : snapPoint ref w h r pt = pt := by
  have hfold : (squareOffsets r).foldl
      (snapSearchStep ref w h (jsRound pt.x) (jsRound pt.y))
      (none, pt.x, pt.y) = (none, pt.x, pt.y) := by
    apply foldl_invariant (fun st => st = (none, pt.x, pt.y))
    · rfl
    · intro st p hp hst
      subst hst
      simp only [snapSearchStep]
      split
      · rfl
      · next hin =>
          rw [if_neg]
          intro habs
          rw [hpt p hp hin] at habs
          exact lt_irrefl 0 habs
  simp only [snapPoint]
  split
  · rfl
  · rw [hfold]

/-- **C10.**  `snapPathsToEdges` changes only point coordinates: the result
has the same number of paths in the same order, each output path keeps the
input path's color, strokeWidth, closed flag, id and number of points, and a
point that is already on a reference edge pixel — or that has no reference
edge pixel within the snap-radius square — is returned unchanged. -/
theorem snapPathsToEdges_spec (paths : List PathData) (ref : ℕ → ℕ)
    (w h r : ℕ) :
    (snapPathsToEdges paths ref w h r).length = paths.length ∧
      (∀ i p, paths.get? i = some p →
        ∃ q, (snapPathsToEdges paths ref w h r).get? i = some q ∧
          q.color = p.color ∧ q.strokeWidth = p.strokeWidth ∧
          q.closed = p.closed ∧ q.id = p.id ∧
          q.points.length = p.points.length ∧
          ∀ j pt, p.points.get? j = some pt →
            q.points.get? j = some (snapPoint ref w h r pt)) ∧
      (∀ pt, OnRefEdge ref w h pt → snapPoint ref w h r pt = pt) ∧
      (∀ pt, NoRefNearby ref w h r pt → snapPoint ref w h r pt = pt) := by
  refine ⟨by simp [snapPathsToEdges], ?_,
    fun pt hpt => snapPoint_onEdge ref w h r pt hpt,
    fun pt hpt => snapPoint_noNearby ref w h r pt hpt⟩
  intro i p hp
  refine ⟨{ p with points := p.points.map (snapPoint ref w h r) }, ?_,
    rfl, rfl, rfl, rfl, by simp, ?_⟩
  · unfold snapPathsToEdges
    rw [List.get?_map, hp]
    rfl
  · intro j pt hjpt
    rw [List.get?_map, hjpt]
    rfl

/-- Concrete reference mask for the C10 witness (4×4, one pixel at (1,1)). -/
def c10Ref : ℕ → ℕ := fun i => if i = 5 then 255 else 0

/-- Concrete path list for the C10 witness. -/
def c10Paths : List PathData :=
  [{ points := [⟨1, 1⟩, ⟨3, 3⟩], color := ⟨0, 0, 0, 255⟩,
     strokeWidth := 1, closed := false, id := some "p0" }]

/-- **C10 witness**: the theorem applied at a concrete input; the first
point is on a reference pixel and the far corner point has no reference
pixel in its radius-1 square, so both are unchanged. -/
theorem snapPathsToEdges_spec_witness :
    ((c10Paths.get? 0 = some (c10Paths.get ⟨0, by decide⟩)) ∧
      OnRefEdge c10Ref 4 4 ⟨1, 1⟩ ∧ NoRefNearby c10Ref 4 4 1 ⟨3, 3⟩) ∧
      ((∃ q, (snapPathsToEdges c10Paths c10Ref 4 4 1).get? 0 = some q ∧
          q.color = (c10Paths.get ⟨0, by decide⟩).color ∧
          q.strokeWidth = (c10Paths.get ⟨0, by decide⟩).strokeWidth ∧
          q.closed = (c10Paths.get ⟨0, by decide⟩).closed ∧
          q.id = (c10Paths.get ⟨0, by decide⟩).id ∧
          q.points.length = (c10Paths.get ⟨0, by decide⟩).points.length ∧
          ∀ j pt, (c10Paths.get ⟨0, by decide⟩).points.get? j = some pt →
            q.points.get? j = some (snapPoint c10Ref 4 4 1 pt)) ∧
        snapPoint c10Ref 4 4 1 ⟨1, 1⟩ = ⟨1, 1⟩ ∧
        snapPoint c10Ref 4 4 1 ⟨3, 3⟩ = ⟨3, 3⟩) :=
  ⟨⟨by with_unfolding_all decide, by with_unfolding_all decide,
      by with_unfolding_all decide⟩,
    (snapPathsToEdges_spec c10Paths c10Ref 4 4 1).2.1 0 _
      (by with_unfolding_all decide),
    (snapPathsToEdges_spec c10Paths c10Ref 4 4 1).2.2.1 ⟨1, 1⟩
      (by with_unfolding_all decide),
    (snapPathsToEdges_spec c10Paths c10Ref 4 4 1).2.2.2 ⟨3, 3⟩
      (by with_unfolding_all decide)⟩

-- ============================================================================
-- Spurious-path removal (svg-refiner.ts, removeSpuriousPaths)
-- ============================================================================

/-- Inner search of `removeSpuriousPaths`: is some reference pixel set in
the square of radius `checkRadius` around the rounded point? -/
def hasRefNear (ref : ℕ → ℕ) (w h : ℕ) (checkRadius : ℕ) (pt : Pt) : Bool :=
  (squareOffsets checkRadius).any (fun p =>
    let nx := jsRound pt.x + p.2
    let ny := jsRound pt.y + p.1
    decide (0 ≤ nx ∧ nx < (w : ℤ) ∧ 0 ≤ ny ∧ ny < (h : ℤ) ∧
      0 < ref ((ny * w + nx).toNat)))

/-- `removeSpuriousPaths` of svg-refiner.ts: keep a path iff it has at
least 3 points and its unmatched fraction is *strictly below* the spurious
threshold. -/
def removeSpuriousPaths (paths : List PathData) (ref : ℕ → ℕ) (w h : ℕ)
    (spuriousThreshold : ℚ := 7/10) (checkRadius : ℕ := 2) : List PathData :=
  paths.filter (fun path =>
    if path.points.length < 3 then false
    else
      let totalChecked := path.points.length
      let unmatchedCount :=
        path.points.countP (fun pt => ! hasRefNear ref w h checkRadius pt)
      let unmatchedFraction : ℚ :=
        if 0 < totalChecked then (unmatchedCount : ℚ) / totalChecked else 1
      decide (unmatchedFraction < spuriousThreshold))

/-- The unmatched fraction of a path, as the claim describes it. -/
def unmatchedFraction (ref : ℕ → ℕ) (w h checkRadius : ℕ)
    (path : PathData) : ℚ :=
  (path.points.countP (fun pt => ! hasRefNear ref w h checkRadius pt) : ℚ)
    / path.points.length

/-- Ten-point path for the C5 counterexample: exactly 3 of its points have
a reference pixel within radius 2, so its unmatched fraction is 7/10. -/
def c5Path : PathData :=
  { points := (List.range 10).map (fun k => ⟨(5 * k : ℕ), 0⟩),
    color := ⟨0, 0, 0, 255⟩, strokeWidth := 1, closed := false, id := none }

/-- 50×1 reference mask for the C5 counterexample: pixels 0, 5, 10 set. -/
def c5Ref : ℕ → ℕ := fun i => if i = 0 ∨ i = 5 ∨ i = 10 then 255 else 0

/-- **C5 counterexample.**  A 10-point path whose unmatched fraction equals
the threshold 7/10 exactly is *dropped* by `removeSpuriousPaths`, while the
claim says a path whose fraction is exactly equal to the threshold is kept. -/
theorem removeSpuriousPaths_drops_at_threshold :
    removeSpuriousPaths [c5Path] c5Ref 50 1 (7/10) 2 = [] ∧
      3 ≤ c5Path.points.length ∧
      unmatchedFraction c5Ref 50 1 2 c5Path = 7/10 := by
  with_unfolding_all decide

/-- **C5 (amended).**  `removeSpuriousPaths` drops exactly those paths whose
unmatched fraction is *greater than or equal to* the spurious threshold,
plus every path with fewer than 3 points; equivalently it keeps exactly the
paths with at least 3 points and unmatched fraction strictly below the
threshold (a fraction exactly equal to the threshold is dropped). -/
theorem removeSpuriousPaths_filter_spec (paths : List PathData)
    (ref : ℕ → ℕ) (w h : ℕ) (thr : ℚ) (r : ℕ) :
    removeSpuriousPaths paths ref w h thr r = paths.filter (fun p =>
      decide (3 ≤ p.points.length ∧ unmatchedFraction ref w h r p < thr)) := by
  unfold removeSpuriousPaths
  apply List.filter_congr
  intro p _
  by_cases h3 : p.points.length < 3
  · simp [h3, unmatchedFraction]
  · have hpos : 0 < p.points.length := by omega
    simp [h3, hpos, unmatchedFraction]
    omega

-- ============================================================================
-- SVG path serialization (svg-generator module: toFixed, pointsToPathString)
-- ============================================================================

/-- Decimal rendering of the rational `v / 10^p` with exactly `p`
fractional digits, as `Number.prototype.toFixed(p)` renders the rounded
value (`v` integral, so the rendering is exact). -/
def fixedDigits (v : ℤ) (p : ℕ) : String :=
  let mag := v.natAbs
  let intPart := mag / 10 ^ p
  let fracPart := mag % 10 ^ p
  let s := toString intPart ++
    (if 0 < p then "." ++ (toString (10 ^ p + fracPart)).drop 1 else "")
  if v < 0 then "-" ++ s else s

/-- The source's trailing-zero strip `.replace(/\.?0+$/, '')`: delete the
maximal run of trailing `'0'` characters together with a `'.'` directly
preceding it.  (The regex matches even when no decimal point is present,
which is what makes integer outputs collapse.) -/
def stripTrailingZeros (s : String) : String :=
  let cs := s.toList
  let t := (cs.reverse.takeWhile (fun c => c = '0')).length
  if t = 0 then s
  else
    let j := cs.length - t
    if 0 < j ∧ cs.getD (j - 1) ' ' = '.' then String.mk (cs.take (j - 1))
    else String.mk (cs.take j)

/-- `toFixed` of the svg-generator module:
`(Math.round(num * 10^p) / 10^p).toFixed(p).replace(/\.?0+$/, '')`. -/
def toFixedStr (num : ℚ) (precision : ℕ) : String :=
  let factor : ℚ := 10 ^ precision
  stripTrailingZeros (fixedDigits (jsRound (num * factor)) precision)

/-- `pointsToPathString` of the svg-generator module: an absolute move-to
followed by line-to commands, with a closing `Z` when requested. -/
def pointsToPathString (points : List Pt) (closed : Bool := true)
    (precision : ℕ := 3) : String :=
  match points with
  | [] => ""
  | [p] => "M" ++ toFixedStr p.x precision ++ "," ++ toFixedStr p.y precision
  | p :: rest =>
      let d := "M" ++ toFixedStr p.x precision ++ "," ++ toFixedStr p.y precision
      let d := rest.foldl (fun acc q =>
        acc ++ " L" ++ toFixedStr q.x precision ++ "," ++ toFixedStr q.y precision) d
      if closed then d ++ " Z" else d

/-- Digits of a decimal string as a natural number (`none` on empty input
or a non-digit). -/
def digitsToNat (cs : List Char) : Option ℕ :=
  if cs.isEmpty then none
  else cs.foldl (fun acc c =>
    acc.bind (fun n => if c.isDigit then some (n * 10 + (c.toNat - 48)) else none))
    (some 0)

/-- Modelled from the spec: read one decimal literal back into a rational
(the document round-trip of §8 needs a reader; none exists in the source). -/
def parseDecimal (s : String) : Option ℚ :=
  let neg := s.startsWith "-"
  let body := if neg then s.drop 1 else s
  let sgn : ℚ := if neg then -1 else 1
  match (body.toList.splitOn '.').map digitsToNat with
  | [some ip] => some (sgn * ip)
  | [some ip, some fp] =>
      some (sgn * (ip + (fp : ℚ) / 10 ^ ((body.toList.splitOn '.').getD 1 []).length))
  | _ => none

/-- Modelled from the spec: parse an emitted `d` attribute (absolute `M`
followed by `L` commands, as `pointsToPathString` writes them) back into
the point sequence. -/
def parsePathString (d : String) : List Pt :=
  (d.toList.splitOn ' ').filterMap (fun tok =>
    let tok := match tok with
      | c :: rest => if c = 'M' ∨ c = 'L' then rest else tok
      | [] => tok
    match tok.splitOn ',' with
    | [sx, sy] =>
        match parseDecimal (String.mk sx), parseDecimal (String.mk sy) with
        | some x, some y => some ⟨x, y⟩
        | _, _ => none
    | _ => none)

/-- **C6.**  The document round-trip fails at precision 0: the trailing-zero
regex `\.?0+$` also strips the zeros of an *integer* rendering, so the
point `(10, 3)` is emitted as `M1,3` and parses back to `(1, 3)`, which is
not within `10^-0 = 1` of the original `x = 10`.  (For precision ≥ 1 the
rendering always contains a decimal point and the strip is harmless.) -/
theorem pointsToPathString_precision0_bug :
    pointsToPathString [⟨10, 3⟩, ⟨2, 7⟩] false 0 = "M1,3 L2,7" ∧
      parsePathString "M1,3 L2,7" = [⟨1, 3⟩, ⟨2, 7⟩] ∧
      ¬ (|(1 : ℚ) - 10| ≤ 1) := by
  refine ⟨?_, ?_, by norm_num⟩
  · with_unfolding_all decide
  · with_unfolding_all decide

-- ============================================================================
-- Zhang–Suen thinning (API route, zhangSuenThinning)
-- ============================================================================

/-- `getPixel` of `zhangSuenThinning`: out-of-range reads return 0. -/
def zsGet (w h : ℕ) (M : ℕ → ℕ) (x y : ℤ) : ℕ :=
  if x < 0 ∨ (w : ℤ) ≤ x ∨ y < 0 ∨ (h : ℤ) ≤ y then 0
  else M ((y * w + x).toNat)

/-- The 8-neighborhood `[P2,…,P9]` of a pixel, clockwise from north, as
`zhangSuenThinning` reads it. -/
def zsNeighborhood (w h : ℕ) (M : ℕ → ℕ) (x y : ℕ) : List ℕ :=
  [zsGet w h M x ((y : ℤ) - 1),
   zsGet w h M ((x : ℤ) + 1) ((y : ℤ) - 1),
   zsGet w h M ((x : ℤ) + 1) y,
   zsGet w h M ((x : ℤ) + 1) ((y : ℤ) + 1),
   zsGet w h M x ((y : ℤ) + 1),
   zsGet w h M ((x : ℤ) - 1) ((y : ℤ) + 1),
   zsGet w h M ((x : ℤ) - 1) y,
   zsGet w h M ((x : ℤ) - 1) ((y : ℤ) - 1)]

/-- Sub-iteration 1 marking condition of `zhangSuenThinning`
(`A === 1 && 2 ≤ B ≤ 6 && P2·P4·P6 = 0 && P4·P6·P8 = 0`). -/
def zsMarkCond1 (w h : ℕ) (M : ℕ → ℕ) (x y : ℕ) : Bool :=
  match zsNeighborhood w h M x y with
  | [p2, p3, p4, p5, p6, p7, p8, p9] =>
      let A := (if p2 = 0 ∧ p3 = 1 then 1 else 0) +
        (if p3 = 0 ∧ p4 = 1 then 1 else 0) +
        (if p4 = 0 ∧ p5 = 1 then 1 else 0) +
        (if p5 = 0 ∧ p6 = 1 then 1 else 0) +
        (if p6 = 0 ∧ p7 = 1 then 1 else 0) +
        (if p7 = 0 ∧ p8 = 1 then 1 else 0) +
        (if p8 = 0 ∧ p9 = 1 then 1 else 0) +
        (if p9 = 0 ∧ p2 = 1 then 1 else 0)
      let B := p2 + p3 + p4 + p5 + p6 + p7 + p8 + p9
      decide (A = 1 ∧ (2 ≤ B ∧ B ≤ 6) ∧ p2 * p4 * p6 = 0 ∧ p4 * p6 * p8 = 0)
  | _ => false

/-- Sub-iteration 2 marking condition of `zhangSuenThinning`
(`A === 1 && 2 ≤ B ≤ 6 && P2·P4·P8 = 0 && P2·P6·P8 = 0`). -/
def zsMarkCond2 (w h : ℕ) (M : ℕ → ℕ) (x y : ℕ) : Bool :=
  match zsNeighborhood w h M x y with
  | [p2, p3, p4, p5, p6, p7, p8, p9] =>
      let A := (if p2 = 0 ∧ p3 = 1 then 1 else 0) +
        (if p3 = 0 ∧ p4 = 1 then 1 else 0) +
        (if p4 = 0 ∧ p5 = 1 then 1 else 0) +
        (if p5 = 0 ∧ p6 = 1 then 1 else 0) +
        (if p6 = 0 ∧ p7 = 1 then 1 else 0) +
        (if p7 = 0 ∧ p8 = 1 then 1 else 0) +
        (if p8 = 0 ∧ p9 = 1 then 1 else 0) +
        (if p9 = 0 ∧ p2 = 1 then 1 else 0)
      let B := p2 + p3 + p4 + p5 + p6 + p7 + p8 + p9
      decide (A = 1 ∧ (2 ≤ B ∧ B ≤ 6) ∧ p2 * p4 * p8 = 0 ∧ p2 * p6 * p8 = 0)
  | _ => false

/-- The interior coordinates `(y, x)` scanned by both sub-iteration loops
(`for y = 1 .. h-2`, `for x = 1 .. w-2`). -/
def interiorCoords (w h : ℕ) : List (ℕ × ℕ) :=
  ((List.range (h - 2)).map (· + 1)).flatMap (fun y =>
    ((List.range (w - 2)).map (· + 1)).map (fun x => (y, x)))

theorem mem_interiorCoords {w h : ℕ} {p : ℕ × ℕ} :
    p ∈ interiorCoords w h ↔
      1 ≤ p.1 ∧ p.1 + 1 < h ∧ 1 ≤ p.2 ∧ p.2 + 1 < w := by
  simp only [interiorCoords, List.mem_flatMap, List.mem_map, List.mem_range]
  constructor
  · rintro ⟨y, ⟨y', hy', rfl⟩, x, ⟨x', hx', rfl⟩, rfl⟩
    simp only
    omega
  · rintro ⟨h1, h2, h3, h4⟩
    exact ⟨p.1, ⟨p.1 - 1, by omega, by omega⟩, p.2, ⟨p.2 - 1, by omega, by omega⟩,
      by simp⟩

/-- One marking pass of `zhangSuenThinning` (`pixelsToRemove` collection):
every interior foreground pixel satisfying `cond` is recorded, reading the
mask as it stands when the pass starts. -/
def zsMarks (cond : ℕ → ℕ → Bool) (w : ℕ) (h : ℕ) (M : ℕ → ℕ) : List ℕ :=
  (interiorCoords w h).foldl (fun acc p =>
    if M (p.1 * w + p.2) = 0 then acc
    else if cond p.2 p.1 then acc ++ [p.1 * w + p.2] else acc) []

/-- Simultaneous deletion of all marked pixels. -/
def zsDelete (marks : List ℕ) (M : ℕ → ℕ) : ℕ → ℕ :=
  fun i => if i ∈ marks then 0 else M i

/-- One pass of the `while (changed)` loop of `zhangSuenThinning`:
sub-iteration 1 (mark on the current mask, delete all marks), then
sub-iteration 2 (mark on the updated mask, delete all marks); the flag is
whether either sub-iteration deleted anything. -/
def zsIteration (w h : ℕ) (M : ℕ → ℕ) : (ℕ → ℕ) × Bool :=
  let marks1 := zsMarks (zsMarkCond1 w h M) w h M
  let M1 := zsDelete marks1 M
  let marks2 := zsMarks (zsMarkCond2 w h M1) w h M1
  let M2 := zsDelete marks2 M1
  (M2, ! marks1.isEmpty || ! marks2.isEmpty)

/-- The `while (changed)` loop, with fuel.  Each changed pass deletes at
least one foreground pixel, so `w * h + 1` units of fuel provably dominate
the source loop's termination bound (proved below). -/
def zsLoop (w h : ℕ) : ℕ → (ℕ → ℕ) → (ℕ → ℕ)
  | 0, M => M
  | n + 1, M =>
      let r := zsIteration w h M
      if r.2 then zsLoop w h n r.1 else M

/-- `zhangSuenThinning` of the API route: iterate the two sub-iterations to
a fixed point, then map the surviving values through `v * 255` (clamped by
the `Uint8ClampedArray` store). -/
def zhangSuenThinning (w h : ℕ) (M : ℕ → ℕ) : ℕ → ℕ :=
  let final := zsLoop w h (w * h + 1) M
  fun i => if i < w * h then min (final i * 255) 255 else 0

theorem ite_and_one_eq_zero {a b : ℕ} (hb : b ≠ 1) :
    (if a = 0 ∧ b = 1 then 1 else 0) = 0 := if_neg (fun hc => hb hc.2)

theorem zsGet_ne_one (w h : ℕ) (S : ℕ → ℕ) (hS : ∀ j, S j ≠ 1)
    (a b : ℤ) : zsGet w h S a b ≠ 1 := by
  unfold zsGet
  split
  · omega
  · exact hS _

theorem zsMarkCond1_no_ones (w h : ℕ) (S : ℕ → ℕ) (hS : ∀ j, S j ≠ 1)
    (x y : ℕ) : zsMarkCond1 w h S x y = false := by
  have hg : ∀ (a b : ℤ), zsGet w h S a b ≠ 1 := zsGet_ne_one w h S hS
  simp only [zsMarkCond1, zsNeighborhood]
  rw [ite_and_one_eq_zero (hg _ _), ite_and_one_eq_zero (hg _ _),
    ite_and_one_eq_zero (hg _ _), ite_and_one_eq_zero (hg _ _),
    ite_and_one_eq_zero (hg _ _), ite_and_one_eq_zero (hg _ _),
    ite_and_one_eq_zero (hg _ _), ite_and_one_eq_zero (hg _ _)]
  simp

theorem zsMarkCond2_no_ones (w h : ℕ) (S : ℕ → ℕ) (hS : ∀ j, S j ≠ 1)
    (x y : ℕ) : zsMarkCond2 w h S x y = false := by
  have hg : ∀ (a b : ℤ), zsGet w h S a b ≠ 1 := zsGet_ne_one w h S hS
  simp only [zsMarkCond2, zsNeighborhood]
  rw [ite_and_one_eq_zero (hg _ _), ite_and_one_eq_zero (hg _ _),
    ite_and_one_eq_zero (hg _ _), ite_and_one_eq_zero (hg _ _),
    ite_and_one_eq_zero (hg _ _), ite_and_one_eq_zero (hg _ _),
    ite_and_one_eq_zero (hg _ _), ite_and_one_eq_zero (hg _ _)]
  simp

theorem zsMarks_nil_of_cond_false (cond : ℕ → ℕ → Bool) (w h : ℕ)
    (S : ℕ → ℕ) (hc : ∀ x y, cond x y = false) :
    zsMarks cond w h S = [] := by
  unfold zsMarks
  apply foldl_invariant (fun acc => acc = [])
  · rfl
  · intro acc p _ hacc
    subst hacc
    simp [hc p.2 p.1]

theorem zsIteration_unchanged (w h : ℕ) (S : ℕ → ℕ) (hS : ∀ j, S j ≠ 1) :
    (zsIteration w h S).2 = false := by
  have h1 : zsMarks (zsMarkCond1 w h S) w h S = [] :=
    zsMarks_nil_of_cond_false _ w h S (zsMarkCond1_no_ones w h S hS)
  have hS1 : ∀ j, zsDelete [] S j ≠ 1 := by
    intro j
    simpa [zsDelete] using hS j
  have h2 : zsMarks (zsMarkCond2 w h (zsDelete [] S)) w h
      (zsDelete [] S) = [] :=
    zsMarks_nil_of_cond_false _ w h _ (zsMarkCond2_no_ones w h _ hS1)
  simp only [zsIteration, h1, h2]
  rfl

theorem zsLoop_fix (w h : ℕ) (S : ℕ → ℕ) (n : ℕ) (hS : ∀ j, S j ≠ 1) :
    zsLoop w h (n + 1) S = S := by
  simp [zsLoop, zsIteration_unchanged w h S hS]

theorem zhangSuenThinning_vals (w h : ℕ) (M : ℕ → ℕ) (i : ℕ) :
    zhangSuenThinning w h M i = 0 ∨ zhangSuenThinning w h M i = 255 := by
  simp only [zhangSuenThinning]
  split
  · rcases Nat.eq_zero_or_pos (zsLoop w h (w * h + 1) M i) with hv | hv <;> omega
  · exact Or.inl rfl

theorem zhangSuenThinning_out_of_range (w h : ℕ) (M : ℕ → ℕ) (i : ℕ)
    (hi : ¬ i < w * h) : zhangSuenThinning w h M i = 0 := by
  simp [zhangSuenThinning, hi]

theorem zhangSuenThinning_fixed (w h : ℕ) (S : ℕ → ℕ)
    (hvals : ∀ i, S i = 0 ∨ S i = 255)
    (hout : ∀ i, ¬ i < w * h → S i = 0) :
    zhangSuenThinning w h S = S := by
  have hS : ∀ j, S j ≠ 1 := by
    intro j
    rcases hvals j with hv | hv <;> omega
  funext i
  simp only [zhangSuenThinning]
  rw [show w * h + 1 = w * h + 1 from rfl, zsLoop_fix w h S (w * h) hS]
  split
  · rcases hvals i with hv | hv <;> rw [hv] <;> omega
  · next hi => exact (hout i hi).symm

/-- **C8.**  Zhang–Suen thinning is idempotent: applying
`zhangSuenThinning` to an already thinned mask (the output of a previous
thinning run, a fixed point of the procedure) returns it unchanged. -/
theorem zhangSuenThinning_idempotent (w h : ℕ) (M : ℕ → ℕ) :
    zhangSuenThinning w h (zhangSuenThinning w h M) = zhangSuenThinning w h M :=
  zhangSuenThinning_fixed w h (zhangSuenThinning w h M)
    (zhangSuenThinning_vals w h M)
    (zhangSuenThinning_out_of_range w h M)

theorem rowMajor_unique {w y1 x1 y2 x2 : ℕ} (hx1 : x1 < w) (hx2 : x2 < w)
    (he : y1 * w + x1 = y2 * w + x2) : y1 = y2 ∧ x1 = x2 := by
  have hw : 0 < w := by omega
  have t1 : (y1 * w + x1) % w = x1 := by
    rw [Nat.add_comm, Nat.add_mul_mod_self_right, Nat.mod_eq_of_lt hx1]
  have t2 : (y2 * w + x2) % w = x2 := by
    rw [Nat.add_comm, Nat.add_mul_mod_self_right, Nat.mod_eq_of_lt hx2]
  have e1 : x1 = x2 := by rw [← t1, ← t2, he]
  subst e1
  have e2 : y1 * w = y2 * w := by omega
  exact ⟨Nat.eq_of_mul_eq_mul_right hw e2, rfl⟩

theorem zsMarks_foldl_eq (cond : ℕ → ℕ → Bool) (w : ℕ) (M : ℕ → ℕ)
    (l : List (ℕ × ℕ)) (acc : List ℕ) :
    l.foldl (fun acc p =>
        if M (p.1 * w + p.2) = 0 then acc
        else if cond p.2 p.1 then acc ++ [p.1 * w + p.2] else acc) acc
      = acc ++ (l.filter (fun p =>
          ! decide (M (p.1 * w + p.2) = 0) && cond p.2 p.1)).map
          (fun p => p.1 * w + p.2) := by
  induction l generalizing acc with
  | nil => simp
  | cons b t ih =>
      simp only [List.foldl_cons, List.filter_cons]
      by_cases hs : M (b.1 * w + b.2) = 0
      · simp [hs, ih]
      · by_cases hc : cond b.2 b.1 <;> simp [hs, hc, ih]

theorem zsMarks_eq (cond : ℕ → ℕ → Bool) (w h : ℕ) (M : ℕ → ℕ) :
    zsMarks cond w h M = ((interiorCoords w h).filter (fun p =>
      ! decide (M (p.1 * w + p.2) = 0) && cond p.2 p.1)).map
      (fun p => p.1 * w + p.2) := by
  unfold zsMarks
  rw [zsMarks_foldl_eq]
  simp

/-- Modelled from the spec: `A`, the number of `0 → 1` transitions in the
cyclic sequence `P2, P3, …, P9, P2`. -/
def specTransitions (ps : List ℕ) : ℕ :=
  ((ps ++ ps.take 1).zip ((ps ++ ps.take 1).drop 1)).countP
    (fun pq => decide (pq.1 = 0 ∧ pq.2 = 1))

theorem specTransitions_explicit (p2 p3 p4 p5 p6 p7 p8 p9 : ℕ) :
    specTransitions [p2, p3, p4, p5, p6, p7, p8, p9] =
      (if p2 = 0 ∧ p3 = 1 then 1 else 0) +
        (if p3 = 0 ∧ p4 = 1 then 1 else 0) +
        (if p4 = 0 ∧ p5 = 1 then 1 else 0) +
        (if p5 = 0 ∧ p6 = 1 then 1 else 0) +
        (if p6 = 0 ∧ p7 = 1 then 1 else 0) +
        (if p7 = 0 ∧ p8 = 1 then 1 else 0) +
        (if p8 = 0 ∧ p9 = 1 then 1 else 0) +
        (if p9 = 0 ∧ p2 = 1 then 1 else 0) := by
  unfold specTransitions
  rw [show (([p2, p3, p4, p5, p6, p7, p8, p9] ++
      [p2, p3, p4, p5, p6, p7, p8, p9].take 1).zip
      (([p2, p3, p4, p5, p6, p7, p8, p9] ++
        [p2, p3, p4, p5, p6, p7, p8, p9].take 1).drop 1))
    = [(p2, p3), (p3, p4), (p4, p5), (p5, p6), (p6, p7), (p7, p8), (p8, p9),
        (p9, p2)] from rfl]
  simp only [List.countP_cons, List.countP_nil, decide_eq_true_eq]
  split_ifs <;> omega

/-- Modelled from the spec: the sub-iteration-1 marking rule for an
interior foreground pixel (`A = 1`, `2 ≤ B ≤ 6`, `P2·P4·P6 = 0`,
`P4·P6·P8 = 0`, with `B` the sum of the neighbors). -/
def specZSMark1 (w h : ℕ) (M : ℕ → ℕ) (x y : ℕ) : Prop :=
  1 ≤ x ∧ x + 1 < w ∧ 1 ≤ y ∧ y + 1 < h ∧ M (y * w + x) = 1 ∧
    specTransitions (zsNeighborhood w h M x y) = 1 ∧
    (2 ≤ (zsNeighborhood w h M x y).sum ∧ (zsNeighborhood w h M x y).sum ≤ 6) ∧
    (zsNeighborhood w h M x y).getD 0 0 * (zsNeighborhood w h M x y).getD 2 0 *
      (zsNeighborhood w h M x y).getD 4 0 = 0 ∧
    (zsNeighborhood w h M x y).getD 2 0 * (zsNeighborhood w h M x y).getD 4 0 *
      (zsNeighborhood w h M x y).getD 6 0 = 0

/-- Modelled from the spec: the sub-iteration-2 marking rule
(`P2·P4·P8 = 0`, `P2·P6·P8 = 0`). -/
def specZSMark2 (w h : ℕ) (M : ℕ → ℕ) (x y : ℕ) : Prop :=
  1 ≤ x ∧ x + 1 < w ∧ 1 ≤ y ∧ y + 1 < h ∧ M (y * w + x) = 1 ∧
    specTransitions (zsNeighborhood w h M x y) = 1 ∧
    (2 ≤ (zsNeighborhood w h M x y).sum ∧ (zsNeighborhood w h M x y).sum ≤ 6) ∧
    (zsNeighborhood w h M x y).getD 0 0 * (zsNeighborhood w h M x y).getD 2 0 *
      (zsNeighborhood w h M x y).getD 6 0 = 0 ∧
    (zsNeighborhood w h M x y).getD 0 0 * (zsNeighborhood w h M x y).getD 4 0 *
      (zsNeighborhood w h M x y).getD 6 0 = 0

instance (w h : ℕ) (M : ℕ → ℕ) (x y : ℕ) :
    Decidable (specZSMark1 w h M x y) := by unfold specZSMark1; infer_instance

instance (w h : ℕ) (M : ℕ → ℕ) (x y : ℕ) :
    Decidable (specZSMark2 w h M x y) := by unfold specZSMark2; infer_instance

theorem zsMarkCond1_iff_spec (w h : ℕ) (M : ℕ → ℕ) (x y : ℕ) :
    zsMarkCond1 w h M x y = true ↔
      (specTransitions (zsNeighborhood w h M x y) = 1 ∧
        (2 ≤ (zsNeighborhood w h M x y).sum ∧
          (zsNeighborhood w h M x y).sum ≤ 6) ∧
        (zsNeighborhood w h M x y).getD 0 0 *
          (zsNeighborhood w h M x y).getD 2 0 *
          (zsNeighborhood w h M x y).getD 4 0 = 0 ∧
        (zsNeighborhood w h M x y).getD 2 0 *
          (zsNeighborhood w h M x y).getD 4 0 *
          (zsNeighborhood w h M x y).getD 6 0 = 0) := by
  rw [show zsNeighborhood w h M x y = [zsGet w h M x ((y : ℤ) - 1),
    zsGet w h M ((x : ℤ) + 1) ((y : ℤ) - 1), zsGet w h M ((x : ℤ) + 1) y,
    zsGet w h M ((x : ℤ) + 1) ((y : ℤ) + 1), zsGet w h M x ((y : ℤ) + 1),
    zsGet w h M ((x : ℤ) - 1) ((y : ℤ) + 1), zsGet w h M ((x : ℤ) - 1) y,
    zsGet w h M ((x : ℤ) - 1) ((y : ℤ) - 1)] from rfl]
  rw [specTransitions_explicit]
  simp only [zsMarkCond1, zsNeighborhood, decide_eq_true_eq, List.sum_cons,
    List.sum_nil, List.getD, List.get?]
  constructor
  · rintro ⟨hA, ⟨hB1, hB2⟩, hm1, hm2⟩
    refine ⟨hA, ⟨by omega, by omega⟩, hm1, hm2⟩
  · rintro ⟨hA, ⟨hB1, hB2⟩, hm1, hm2⟩
    refine ⟨hA, ⟨by omega, by omega⟩, hm1, hm2⟩

theorem zsMarkCond2_iff_spec (w h : ℕ) (M : ℕ → ℕ) (x y : ℕ) :
    zsMarkCond2 w h M x y = true ↔
      (specTransitions (zsNeighborhood w h M x y) = 1 ∧
        (2 ≤ (zsNeighborhood w h M x y).sum ∧
          (zsNeighborhood w h M x y).sum ≤ 6) ∧
        (zsNeighborhood w h M x y).getD 0 0 *
          (zsNeighborhood w h M x y).getD 2 0 *
          (zsNeighborhood w h M x y).getD 6 0 = 0 ∧
        (zsNeighborhood w h M x y).getD 0 0 *
          (zsNeighborhood w h M x y).getD 4 0 *
          (zsNeighborhood w h M x y).getD 6 0 = 0) := by
  rw [show zsNeighborhood w h M x y = [zsGet w h M x ((y : ℤ) - 1),
    zsGet w h M ((x : ℤ) + 1) ((y : ℤ) - 1), zsGet w h M ((x : ℤ) + 1) y,
    zsGet w h M ((x : ℤ) + 1) ((y : ℤ) + 1), zsGet w h M x ((y : ℤ) + 1),
    zsGet w h M ((x : ℤ) - 1) ((y : ℤ) + 1), zsGet w h M ((x : ℤ) - 1) y,
    zsGet w h M ((x : ℤ) - 1) ((y : ℤ) - 1)] from rfl]
  rw [specTransitions_explicit]
  simp only [zsMarkCond2, zsNeighborhood, decide_eq_true_eq, List.sum_cons,
    List.sum_nil, List.getD, List.get?]
  constructor
  · rintro ⟨hA, ⟨hB1, hB2⟩, hm1, hm2⟩
    refine ⟨hA, ⟨by omega, by omega⟩, hm1, hm2⟩
  · rintro ⟨hA, ⟨hB1, hB2⟩, hm1, hm2⟩
    refine ⟨hA, ⟨by omega, by omega⟩, hm1, hm2⟩

theorem zsMarks1_mem_iff (w h : ℕ) (M : ℕ → ℕ)
    (hM : ∀ i, M i = 0 ∨ M i = 1) (x y : ℕ) (hx : x < w) :
    (y * w + x) ∈ zsMarks (zsMarkCond1 w h M) w h M ↔
      specZSMark1 w h M x y := by
  rw [zsMarks_eq]
  simp only [List.mem_map, List.mem_filter, mem_interiorCoords,
    Bool.and_eq_true, Bool.not_eq_true', decide_eq_false_iff_not]
  constructor
  · rintro ⟨p, ⟨⟨h1, h2, h3, h4⟩, hnz, hcond⟩, he⟩
    have hpx : p.2 < w := by omega
    obtain ⟨hy, hx'⟩ := rowMajor_unique hpx hx he
    subst hy
    subst hx'
    obtain ⟨hA, hB, hm1, hm2⟩ := (zsMarkCond1_iff_spec w h M p.2 p.1).mp hcond
    have hone : M (p.1 * w + p.2) = 1 := by
      rcases hM (p.1 * w + p.2) with hv | hv
      · exact absurd hv hnz
      · exact hv
    exact ⟨h3, h4, h1, h2, hone, hA, hB, hm1, hm2⟩
  · rintro ⟨h1, h2, h3, h4, hone, hA, hB, hm1, hm2⟩
    refine ⟨(y, x), ⟨⟨h3, h4, h1, h2⟩, by simp [hone], ?_⟩, rfl⟩
    exact (zsMarkCond1_iff_spec w h M x y).mpr ⟨hA, hB, hm1, hm2⟩

theorem zsMarks2_mem_iff (w h : ℕ) (M : ℕ → ℕ)
    (hM : ∀ i, M i = 0 ∨ M i = 1) (x y : ℕ) (hx : x < w) :
    (y * w + x) ∈ zsMarks (zsMarkCond2 w h M) w h M ↔
      specZSMark2 w h M x y := by
  rw [zsMarks_eq]
  simp only [List.mem_map, List.mem_filter, mem_interiorCoords,
    Bool.and_eq_true, Bool.not_eq_true', decide_eq_false_iff_not]
  constructor
  · rintro ⟨p, ⟨⟨h1, h2, h3, h4⟩, hnz, hcond⟩, he⟩
    have hpx : p.2 < w := by omega
    obtain ⟨hy, hx'⟩ := rowMajor_unique hpx hx he
    subst hy
    subst hx'
    obtain ⟨hA, hB, hm1, hm2⟩ := (zsMarkCond2_iff_spec w h M p.2 p.1).mp hcond
    have hone : M (p.1 * w + p.2) = 1 := by
      rcases hM (p.1 * w + p.2) with hv | hv
      · exact absurd hv hnz
      · exact hv
    exact ⟨h3, h4, h1, h2, hone, hA, hB, hm1, hm2⟩
  · rintro ⟨h1, h2, h3, h4, hone, hA, hB, hm1, hm2⟩
    refine ⟨(y, x), ⟨⟨h3, h4, h1, h2⟩, by simp [hone], ?_⟩, rfl⟩
    exact (zsMarkCond2_iff_spec w h M x y).mpr ⟨hA, hB, hm1, hm2⟩

/-- Number of foreground (nonzero) pixels in range: the loop's
termination measure. -/
def fgCount (w h : ℕ) (M : ℕ → ℕ) : ℕ :=
  (List.range (w * h)).countP (fun i => decide (M i ≠ 0))

theorem countP_lt_of_witness {l : List ℕ} {p q : ℕ → Bool}
    (hpq : ∀ i ∈ l, p i = true → q i = true) {a : ℕ} (ha : a ∈ l)
    (hqa : q a = true) (hpa : p a = false) :
    l.countP p < l.countP q := by
  induction l with
  | nil => cases ha
  | cons b t ih =>
      rw [List.countP_cons, List.countP_cons]
      have hmono := List.countP_mono_left
        (l := t) (p := p) (q := q) (fun i hi => hpq i (List.mem_cons_of_mem _ hi))
      have h0 : (if (false = true) then 1 else 0) = 0 := by simp
      have h1 : (if (true = true) then 1 else 0) = 1 := by simp
      rcases List.mem_cons.mp ha with rfl | hat
      · rw [hpa, hqa, h0, h1]
        omega
      · have hlt := ih (fun i hi => hpq i (List.mem_cons_of_mem _ hi)) hat
        by_cases hb : p b = true
        · rw [hb, hpq b (List.mem_cons_self _ _) hb]
          omega
        · rw [Bool.not_eq_true] at hb
          rw [hb, h0]
          split <;> omega

theorem zsMarks_mem_bound (cond : ℕ → ℕ → Bool) (w h : ℕ) (M : ℕ → ℕ)
    {idx : ℕ} (hidx : idx ∈ zsMarks cond w h M) :
    idx < w * h ∧ M idx ≠ 0 := by
  rw [zsMarks_eq] at hidx
  simp only [List.mem_map, List.mem_filter, mem_interiorCoords,
    Bool.and_eq_true, Bool.not_eq_true', decide_eq_false_iff_not] at hidx
  obtain ⟨p, ⟨⟨h1, h2, h3, h4⟩, hnz, _⟩, rfl⟩ := hidx
  exact ⟨idx_lt_size (by omega) (by omega), hnz⟩

theorem zsDelete_support {marks : List ℕ} {M : ℕ → ℕ} {i : ℕ}
    (hi : zsDelete marks M i ≠ 0) : M i ≠ 0 := by
  unfold zsDelete at hi
  split at hi
  · exact absurd rfl hi
  · exact hi

theorem fgCount_delete_le (w h : ℕ) (marks : List ℕ) (M : ℕ → ℕ) :
    fgCount w h (zsDelete marks M) ≤ fgCount w h M := by
  apply List.countP_mono_left
  intro i _ hi
  simp only [decide_eq_true_eq] at hi ⊢
  exact zsDelete_support hi

theorem fgCount_delete_lt (w h : ℕ) (marks : List ℕ) (M : ℕ → ℕ)
    (idx : ℕ) (hidx : idx ∈ marks) (hlt : idx < w * h) (hnz : M idx ≠ 0) :
    fgCount w h (zsDelete marks M) < fgCount w h M := by
  apply countP_lt_of_witness (a := idx)
  · intro i _ hi
    simp only [decide_eq_true_eq] at hi ⊢
    exact zsDelete_support hi
  · exact List.mem_range.mpr hlt
  · simpa using hnz
  · simp [zsDelete, hidx]

theorem fgCount_iteration_lt (w h : ℕ) (M : ℕ → ℕ)
    (hch : (zsIteration w h M).2 = true) :
    fgCount w h (zsIteration w h M).1 < fgCount w h M := by
  have hcases : zsMarks (zsMarkCond1 w h M) w h M ≠ [] ∨
      zsMarks (zsMarkCond2 w h (zsDelete (zsMarks (zsMarkCond1 w h M) w h M) M))
        w h (zsDelete (zsMarks (zsMarkCond1 w h M) w h M) M) ≠ [] := by
    have hch2 : (! (zsMarks (zsMarkCond1 w h M) w h M).isEmpty ||
        ! (zsMarks (zsMarkCond2 w h
            (zsDelete (zsMarks (zsMarkCond1 w h M) w h M) M)) w h
          (zsDelete (zsMarks (zsMarkCond1 w h M) w h M) M)).isEmpty)
        = true := hch
    rcases (Bool.or_eq_true _ _).mp hch2 with hb | hb
    · left
      intro hnil
      rw [hnil] at hb
      simp at hb
    · right
      intro hnil
      rw [hnil] at hb
      simp at hb
  have hfst : (zsIteration w h M).1 =
      zsDelete (zsMarks (zsMarkCond2 w h
          (zsDelete (zsMarks (zsMarkCond1 w h M) w h M) M)) w h
          (zsDelete (zsMarks (zsMarkCond1 w h M) w h M) M))
        (zsDelete (zsMarks (zsMarkCond1 w h M) w h M) M) := rfl
  rw [hfst]
  rcases hcases with hne | hne
  · obtain ⟨idx, hidx⟩ := List.exists_mem_of_ne_nil _ hne
    obtain ⟨hlt, hnz⟩ := zsMarks_mem_bound _ w h M hidx
    calc fgCount w h (zsDelete _ (zsDelete (zsMarks (zsMarkCond1 w h M) w h M) M))
        ≤ fgCount w h (zsDelete (zsMarks (zsMarkCond1 w h M) w h M) M) :=
          fgCount_delete_le w h _ _
      _ < fgCount w h M := fgCount_delete_lt w h _ M idx hidx hlt hnz
  · obtain ⟨idx, hidx⟩ := List.exists_mem_of_ne_nil _ hne
    obtain ⟨hlt, hnz⟩ := zsMarks_mem_bound _ w h _ hidx
    calc fgCount w h (zsDelete _ (zsDelete (zsMarks (zsMarkCond1 w h M) w h M) M))
        < fgCount w h (zsDelete (zsMarks (zsMarkCond1 w h M) w h M) M) :=
          fgCount_delete_lt w h _ _ idx hidx hlt hnz
      _ ≤ fgCount w h M := fgCount_delete_le w h _ _

theorem zsLoop_reaches_fix (w h : ℕ) :
    ∀ n M, fgCount w h M < n →
      (zsIteration w h (zsLoop w h n M)).2 = false := by
  intro n
  induction n with
  | zero => intro M hM; omega
  | succ n ih =>
      intro M hM
      simp only [zsLoop]
      by_cases hch : (zsIteration w h M).2 = true
      · rw [if_pos hch]
        exact ih (zsIteration w h M).1
          (by have := fgCount_iteration_lt w h M hch; omega)
      · rw [Bool.not_eq_true] at hch
        rw [hch]
        simpa using hch

/-- **C3.**  Zhang–Suen thinning: for every binary (0/1) mask, (a) the
pixels deleted by sub-iteration 1 are exactly the interior foreground
pixels satisfying `A = 1 ∧ 2 ≤ B ≤ 6 ∧ P2·P4·P6 = 0 ∧ P4·P6·P8 = 0`
(`A` = number of 0→1 transitions in the cyclic neighbor sequence, `B` =
neighbor sum) — evaluated against the mask as it stood when the
sub-iteration began, and all deleted simultaneously; (b) likewise
sub-iteration 2 with `P2·P4·P8 = 0 ∧ P2·P6·P8 = 0`, evaluated against the
mask left by sub-iteration 1; and (c) the two sub-iterations repeat until
no pixels change: a further iteration of the final mask deletes nothing.
The interior restriction (1 ≤ x ≤ w−2, 1 ≤ y ≤ h−2) reflects that the
rule speaks of pixels having all 8 neighbors `P2..P9` in the grid. -/
theorem zhangSuen_subiterations_spec (w h : ℕ) (M : ℕ → ℕ)
    (hM : ∀ i, M i = 0 ∨ M i = 1) :
    (∀ x y, x < w →
        (zsDelete (zsMarks (zsMarkCond1 w h M) w h M) M (y * w + x)
          = if specZSMark1 w h M x y then 0 else M (y * w + x))) ∧
      (∀ x y, x < w →
        ((zsIteration w h M).1 (y * w + x)
          = if specZSMark2 w h
                (zsDelete (zsMarks (zsMarkCond1 w h M) w h M) M) x y
            then 0
            else zsDelete (zsMarks (zsMarkCond1 w h M) w h M) M (y * w + x))) ∧
      (zsIteration w h (zsLoop w h (w * h + 1) M)).2 = false := by
  have hM1 : ∀ i, zsDelete (zsMarks (zsMarkCond1 w h M) w h M) M i = 0 ∨
      zsDelete (zsMarks (zsMarkCond1 w h M) w h M) M i = 1 := by
    intro i
    unfold zsDelete
    split
    · exact Or.inl rfl
    · exact hM i
  have hdel : ∀ (marks : List ℕ) (N : ℕ → ℕ) (i : ℕ),
      zsDelete marks N i = if i ∈ marks then 0 else N i := fun _ _ _ => rfl
  refine ⟨?_, ?_, ?_⟩
  · intro x y hx
    rw [hdel]
    by_cases hmem : (y * w + x) ∈ zsMarks (zsMarkCond1 w h M) w h M
    · rw [if_pos hmem, if_pos ((zsMarks1_mem_iff w h M hM x y hx).mp hmem)]
    · rw [if_neg hmem,
        if_neg (fun hs => hmem ((zsMarks1_mem_iff w h M hM x y hx).mpr hs))]
  · intro x y hx
    show zsDelete _ _ (y * w + x) = _
    rw [hdel]
    by_cases hmem : (y * w + x) ∈ zsMarks
        (zsMarkCond2 w h (zsDelete (zsMarks (zsMarkCond1 w h M) w h M) M)) w h
        (zsDelete (zsMarks (zsMarkCond1 w h M) w h M) M)
    · rw [if_pos hmem, if_pos ((zsMarks2_mem_iff w h _ hM1 x y hx).mp hmem)]
    · rw [if_neg hmem,
        if_neg (fun hs => hmem ((zsMarks2_mem_iff w h _ hM1 x y hx).mpr hs))]
  · apply zsLoop_reaches_fix
    have := List.countP_le_length (l := List.range (w * h))
      (p := fun i => decide (M i ≠ 0))
    simp only [List.length_range] at this
    unfold fgCount
    omega

/-- Concrete 5×5 binary mask (a 3-pixel horizontal bar) for the C3
witness. -/
def c3Mask : ℕ → ℕ := fun i => if i = 11 ∨ i = 12 ∨ i = 13 then 1 else 0

theorem c3Mask_binary : ∀ i, c3Mask i = 0 ∨ c3Mask i = 1 := by
  intro i
  unfold c3Mask
  split
  · exact Or.inr rfl
  · exact Or.inl rfl

/-- **C3 witness**: the theorem applied to the concrete 5×5 mask, its
first conjunct evaluated at the marked pixel (2, 2). -/
theorem zhangSuen_subiterations_spec_witness :
    (∀ i, c3Mask i = 0 ∨ c3Mask i = 1) ∧
      ((2 : ℕ) < 5) ∧
      (zsDelete (zsMarks (zsMarkCond1 5 5 c3Mask) 5 5 c3Mask) c3Mask
          (2 * 5 + 2)
        = if specZSMark1 5 5 c3Mask 2 2 then 0 else c3Mask (2 * 5 + 2)) :=
  ⟨c3Mask_binary, by decide,
    (zhangSuen_subiterations_spec 5 5 c3Mask c3Mask_binary).1 2 2 (by decide)⟩

-- ============================================================================
-- Rasterization (svg-refiner.ts, rasterizePaths / drawLine)
-- ============================================================================

/-- The `while (true)` body of Bresenham's `drawLine`.  Each non-final pass
moves `(x0, y0)` strictly towards `(x1, y1)`, so `|Δx| + |Δy| + 1` fuel
units dominate the plot count of the source loop. -/
def bresenhamLoop (w h : ℕ) (x1 y1 dx dy sx sy : ℤ) :
    ℕ → (ℕ → ℕ) → ℤ → ℤ → ℤ → (ℕ → ℕ)
  | 0, buf, _, _, _ => buf
  | fuel + 1, buf, x0, y0, err =>
      let buf := if 0 ≤ x0 ∧ x0 < (w : ℤ) ∧ 0 ≤ y0 ∧ y0 < (h : ℤ) then
          Function.update buf ((y0 * w + x0).toNat) 255
        else buf
      if x0 = x1 ∧ y0 = y1 then buf
      else
        let e2 := 2 * err
        let st1 : ℤ × ℤ := if -dy < e2 then (err - dy, x0 + sx) else (err, x0)
        let st2 : ℤ × ℤ := if e2 < dx then (st1.1 + dx, y0 + sy) else (st1.1, y0)
        bresenhamLoop w h x1 y1 dx dy sx sy fuel buf st1.2 st2.2 st2.1

/-- `drawLine` of svg-refiner.ts: Bresenham between the rounded endpoints,
plotting 255 at in-bounds pixels. -/
def drawLine (buf : ℕ → ℕ) (w h : ℕ) (p0 p1 : Pt) : ℕ → ℕ :=
  let x0 := jsRound p0.x
  let y0 := jsRound p0.y
  let x1 := jsRound p1.x
  let y1 := jsRound p1.y
  let dx := |x1 - x0|
  let dy := |y1 - y0|
  let sx : ℤ := if x0 < x1 then 1 else -1
  let sy : ℤ := if y0 < y1 then 1 else -1
  bresenhamLoop w h x1 y1 dx dy sx sy (dx + dy + 1).toNat buf x0 y0 (dx - dy)

/-- `rasterizePaths` of svg-refiner.ts: draw every consecutive segment of
every path (closing the loop for closed paths of more than 2 points). -/
def rasterizePaths (paths : List PathData) (w h : ℕ) : ℕ → ℕ :=
  paths.foldl (fun buf path =>
    if path.points.length < 2 then buf
    else
      let buf := (path.points.zip path.points.tail).foldl
        (fun b pq => drawLine b w h pq.1 pq.2) buf
      if path.closed ∧ 2 < path.points.length then
        drawLine buf w h (path.points.getLastD ⟨0, 0⟩) (path.points.headD ⟨0, 0⟩)
      else buf)
    (fun _ => 0)

-- ============================================================================
-- Douglas–Peucker (path-simplification.ts) and adaptive re-simplification
-- ============================================================================

/-- `perpendicularDistance` of path-simplification.ts: distance from a
point to a segment, using the projection when `t ∈ [0, 1]` and the nearer
endpoint otherwise. -/
noncomputable def perpendicularDistance (point lineStart lineEnd : Pt) : ℝ :=
  let dx := lineEnd.x - lineStart.x
  let dy := lineEnd.y - lineStart.y
  let lineLengthSq := dx * dx + dy * dy
  if lineLengthSq = 0 then
    Real.sqrt ((((point.x - lineStart.x) ^ 2 + (point.y - lineStart.y) ^ 2 : ℚ)) : ℝ)
  else
    let t := ((point.x - lineStart.x) * dx + (point.y - lineStart.y) * dy)
      / lineLengthSq
    let projX := lineStart.x + t * dx
    let projY := lineStart.y + t * dy
    let d : ℚ × ℚ :=
      if t < 0 then (point.x - lineStart.x, point.y - lineStart.y)
      else if 1 < t then (point.x - lineEnd.x, point.y - lineEnd.y)
      else (point.x - projX, point.y - projY)
    Real.sqrt (((d.1 * d.1 + d.2 * d.2 : ℚ)) : ℝ)

/-- The max-distance scan of `douglasPeuckerRecursive` over the open
interval `(startIndex, endIndex)` (`(maxDist, maxIndex)`, ties keep the
first). -/
noncomputable def dpFindMax (points : List Pt) (startIndex endIndex : ℕ) :
    ℝ × ℕ :=
  (List.range' (startIndex + 1) (endIndex - startIndex - 1)).foldl
    (fun acc i =>
      let dist := perpendicularDistance (points.getD i ⟨0, 0⟩)
        (points.getD startIndex ⟨0, 0⟩) (points.getD endIndex ⟨0, 0⟩)
      if acc.1 < dist then (dist, i) else acc)
    (0, startIndex)

/-- `douglasPeuckerRecursive` of path-simplification.ts, state-passing over
the `keep` array.  For non-negative tolerances the split index is strictly
interior, so `points.length` fuel units dominate the recursion depth (a
negative tolerance makes the source recurse forever on degenerate spans;
the fuel then cuts the model off). -/
noncomputable def dpRec (points : List Pt) (tolerance : ℚ) :
    ℕ → ℕ → ℕ → (ℕ → Bool) → (ℕ → Bool)
  | 0, _, _, keep => keep
  | fuel + 1, startIndex, endIndex, keep =>
      if endIndex ≤ startIndex + 1 then keep
      else
        let m := dpFindMax points startIndex endIndex
        if (tolerance : ℝ) < m.1 then
          let keep := Function.update keep m.2 true
          let keep := dpRec points tolerance fuel startIndex m.2 keep
          dpRec points tolerance fuel m.2 endIndex keep
        else keep

/-- `douglasPeucker` of path-simplification.ts (the version imported by
svg-refiner.ts). -/
noncomputable def douglasPeucker (points : List Pt) (tolerance : ℚ) :
    List Pt :=
  if points.length < 3 then points
  else
    let keep : ℕ → Bool := fun i =>
      decide (i = 0) || decide (i = points.length - 1)
    let keep := dpRec points tolerance points.length 0 (points.length - 1) keep
    (points.enum.filter (fun p => keep p.1)).map (fun p => p.2)

/-- `adaptiveResimplify` of svg-refiner.ts: when a path's mean reference
distance (over its in-bounds rounded points; out-of-bounds points read
`Infinity` and are filtered out) exceeds `checkRadius`, re-run
Douglas–Peucker with the tighter tolerance `0.5`. -/
noncomputable def adaptiveResimplify (paths : List PathData) (ref : ℕ → ℕ)
    (w h : ℕ) (checkRadius : ℚ := 2) : List PathData :=
  let refDT := computeDistanceTransform ref w h
  paths.map (fun path =>
    if path.points.length < 4 then path
    else
      let pointErrors : List (Option ℚ) := path.points.map (fun p =>
        let px := jsRound p.x
        let py := jsRound p.y
        if 0 ≤ px ∧ px < (w : ℤ) ∧ 0 ≤ py ∧ py < (h : ℤ) then
          some (refDT ((py * w + px).toNat))
        else none)
      let validErrors := pointErrors.filterMap id
      if validErrors.length = 0 then path
      else
        let avgError := validErrors.sum / (validErrors.length : ℚ)
        if checkRadius < avgError then
          { path with points := douglasPeucker path.points (1/2) }
        else path)

-- ============================================================================
-- Contour detection (contour-detector module)
-- ============================================================================

/-- Source `BoundingBox`. -/
structure BoundingBox where
  x : ℚ
  y : ℚ
  width : ℚ
  height : ℚ
deriving DecidableEq

/-- Source `Contour`. -/
structure Contour where
  points : List Pt
  isClosed : Bool
  isHole : Bool
  boundingBox : BoundingBox
  area : ℚ
  perimeter : ℝ

/-- `calculateContourArea`: shoelace formula, absolute value halved. -/
def calculateContourArea (points : List Pt) : ℚ :=
  if points.length < 3 then 0
  else
    |(List.range points.length).foldl (fun acc i =>
      let j := (i + 1) % points.length
      acc + (points.getD i ⟨0, 0⟩).x * (points.getD j ⟨0, 0⟩).y
        - (points.getD j ⟨0, 0⟩).x * (points.getD i ⟨0, 0⟩).y) 0| / 2

/-- `calculateContourPerimeter`: wrap-around segment length sum. -/
noncomputable def calculateContourPerimeter (points : List Pt) : ℝ :=
  if points.length < 2 then 0
  else
    (List.range points.length).foldl (fun acc i =>
      let j := (i + 1) % points.length
      let dx := (points.getD j ⟨0, 0⟩).x - (points.getD i ⟨0, 0⟩).x
      let dy := (points.getD j ⟨0, 0⟩).y - (points.getD i ⟨0, 0⟩).y
      acc + Real.sqrt (((dx * dx + dy * dy : ℚ)) : ℝ)) 0

/-- The 8 direction offsets `(dx, dy)` shared by the Moore and Suzuki
tracers (clockwise from east). -/
def dirs8 : List (ℤ × ℤ) :=
  [(1, 0), (1, 1), (0, 1), (-1, 1), (-1, 0), (-1, -1), (0, -1), (1, -1)]

/-- Loop state of `traceMooreContour`. -/
structure MooreState where
  points : List Pt
  visited : ℕ → Bool
  x : ℕ
  y : ℕ
  dir : ℕ
  firstStep : Bool
  minX : ℕ
  maxX : ℕ
  minY : ℕ
  maxY : ℕ

/-- The Moore-neighborhood search: first foreground neighbor starting from
the backtrack direction `(dir + 5) % 8`. -/
def mooreFindNext (binary : ℕ → ℕ) (w h : ℕ) (x y dir : ℕ) :
    Option (ℕ × ℕ × ℕ) :=
  let startDir := (dir + 5) % 8
  (List.range 8).findSome? (fun i =>
    let checkDir := (startDir + i) % 8
    let d := dirs8.getD checkDir (0, 0)
    let nx := (x : ℤ) + d.1
    let ny := (y : ℤ) + d.2
    if 0 ≤ nx ∧ nx < (w : ℤ) ∧ 0 ≤ ny ∧ ny < (h : ℤ) ∧
        0 < binary ((ny * w + nx).toNat) then
      some (nx.toNat, ny.toNat, checkDir)
    else none)

/-- The `do … while (points.length < w·h)` loop of `traceMooreContour`.
Each pass appends exactly one point, so `w * h + 1` fuel units dominate the
source's own cap. -/
def mooreTraceLoop (binary : ℕ → ℕ) (w h startXx startYy : ℕ) :
    ℕ → MooreState → MooreState
  | 0, st => st
  | fuel + 1, st =>
      let st := { st with
        points := st.points ++ [⟨(st.x : ℚ), (st.y : ℚ)⟩]
        visited := Function.update st.visited (st.y * w + st.x) true
        minX := min st.minX st.x
        maxX := max st.maxX st.x
        minY := min st.minY st.y
        maxY := max st.maxY st.y }
      match mooreFindNext binary w h st.x st.y st.dir with
      | none => st
      | some (nx, ny, ndir) =>
          let st := { st with x := nx, y := ny, dir := ndir }
          if ¬ st.firstStep ∧ st.x = startXx ∧ st.y = startYy then st
          else
            let st := { st with firstStep := false }
            if st.points.length < w * h then
              mooreTraceLoop binary w h startXx startYy fuel st
            else st

/-- `traceMooreContour`: trace one boundary, returning the contour and the
updated visited set. -/
noncomputable def traceMooreContour (binary : ℕ → ℕ) (visited : ℕ → Bool)
    (w h startX startY : ℕ) : Contour × (ℕ → Bool) :=
  let st := mooreTraceLoop binary w h startX startY (w * h + 1)
    { points := [], visited := visited, x := startX, y := startY, dir := 0,
      firstStep := true, minX := startX, maxX := startX, minY := startY,
      maxY := startY }
  (⟨st.points, decide (3 ≤ st.points.length), false,
    ⟨(st.minX : ℚ), (st.minY : ℚ), ((st.maxX - st.minX + 1 : ℕ) : ℚ),
      ((st.maxY - st.minY + 1 : ℕ) : ℚ)⟩,
    calculateContourArea st.points, calculateContourPerimeter st.points⟩,
   st.visited)

/-- `mooreContourTracing`: raster-scan for unvisited leftmost foreground
pixels and trace from each. -/
noncomputable def mooreContourTracing (binary : ℕ → ℕ) (w h : ℕ) :
    List Contour :=
  ((rowMajor w h).foldl (fun (st : (ℕ → Bool) × List Contour) p =>
    let y := p.1
    let x := p.2
    let idx := y * w + x
    if binary idx = 0 ∨ st.1 idx then st
    else if 0 < x ∧ 0 < binary (idx - 1) then st
    else
      let r := traceMooreContour binary st.1 w h x y
      if 3 ≤ r.1.points.length then (r.2, st.2 ++ [r.1]) else (r.2, st.2))
    (fun _ => false, [])).2

/-- Loop state of `traceSuzukiContour`. -/
structure SuzukiState where
  points : List Pt
  labeled : ℕ → ℤ
  x : ℕ
  y : ℕ
  dir : ℕ
  minX : ℕ
  maxX : ℕ
  minY : ℕ
  maxY : ℕ

/-- The Suzuki next-pixel search: first foreground neighbor starting from
`(dir + 6) % 8`. -/
def suzukiFindNext (binary : ℕ → ℕ) (w h : ℕ) (x y dir : ℕ) :
    Option (ℕ × ℕ × ℕ) :=
  let startDir := (dir + 6) % 8
  (List.range 8).findSome? (fun i =>
    let checkDir := (startDir + i) % 8
    let d := dirs8.getD checkDir (0, 0)
    let nx := (x : ℤ) + d.1
    let ny := (y : ℤ) + d.2
    if 0 ≤ nx ∧ nx < (w : ℤ) ∧ 0 ≤ ny ∧ ny < (h : ℤ) ∧
        0 < binary ((ny * w + nx).toNat) then
      some (nx.toNat, ny.toNat, checkDir)
    else none)

/-- The `do … while` loop of `traceSuzukiContour` (stops on return to the
start pixel or at the `w·h` point cap). -/
def suzukiTraceLoop (binary : ℕ → ℕ) (w h : ℕ) (label : ℤ)
    (startX startY : ℕ) : ℕ → SuzukiState → SuzukiState
  | 0, st => st
  | fuel + 1, st =>
      let st := { st with
        points := st.points ++ [⟨(st.x : ℚ), (st.y : ℚ)⟩]
        labeled := Function.update st.labeled (st.y * w + st.x) label
        minX := min st.minX st.x
        maxX := max st.maxX st.x
        minY := min st.minY st.y
        maxY := max st.maxY st.y }
      match suzukiFindNext binary w h st.x st.y st.dir with
      | none => st
      | some (nx, ny, ndir) =>
          let st := { st with x := nx, y := ny, dir := ndir }
          if ¬ (st.x = startX ∧ st.y = startY) ∧ st.points.length < w * h then
            suzukiTraceLoop binary w h label startX startY fuel st
          else st

/-- `traceSuzukiContour`. -/
noncomputable def traceSuzukiContour (binary : ℕ → ℕ) (labeled : ℕ → ℤ)
    (w h startX startY : ℕ) (label : ℤ) (isOuter : Bool) :
    Contour × (ℕ → ℤ) :=
  let st := suzukiTraceLoop binary w h label startX startY (w * h + 1)
    { points := [], labeled := labeled, x := startX, y := startY,
      dir := if isOuter then 0 else 4, minX := startX, maxX := startX,
      minY := startY, maxY := startY }
  (⟨st.points, decide (3 ≤ st.points.length), ! isOuter,
    ⟨(st.minX : ℚ), (st.minY : ℚ), ((st.maxX - st.minX + 1 : ℕ) : ℚ),
      ((st.maxY - st.minY + 1 : ℕ) : ℚ)⟩,
    calculateContourArea st.points, calculateContourPerimeter st.points⟩,
   st.labeled)

/-- Scan state of `suzukiContourTracing`: label image, current label, the
child→parent hierarchy, and the collected contours. -/
structure SuzukiScan where
  labeled : ℕ → ℤ
  currentLabel : ℕ
  hierarchy : List (ℕ × ℤ)
  contours : List Contour

/-- `suzukiContourTracing`: outer contours start where the left neighbor is
background, holes where the pixel below is background. -/
noncomputable def suzukiContourTracing (binary : ℕ → ℕ) (w h : ℕ) :
    List Contour :=
  ((rowMajor w h).foldl (fun (st : SuzukiScan) p =>
    let y := p.1
    let x := p.2
    let idx := y * w + x
    if 0 < binary idx then
      let st :=
        if x = 0 ∨ binary (idx - 1) = 0 then
          let label : ℕ := st.currentLabel + 1
          let r := traceSuzukiContour binary st.labeled w h x y (label : ℤ) true
          { st with
            labeled := r.2
            currentLabel := label
            contours :=
              if 3 ≤ r.1.points.length then st.contours ++ [r.1]
              else st.contours }
        else
          { st with labeled := Function.update st.labeled idx (st.labeled (idx - 1)) }
      if y + 1 < h ∧ binary ((y + 1) * w + x) = 0 then
        let label : ℕ := st.currentLabel + 1
        let parentLabel := st.labeled idx
        let r := traceSuzukiContour binary st.labeled w h x y (label : ℤ) false
        { st with
          labeled := r.2
          currentLabel := label
          hierarchy := st.hierarchy ++ [(label, parentLabel)]
          contours :=
            if 3 ≤ r.1.points.length then
              st.contours ++ [{ r.1 with isHole := true }]
            else st.contours }
      else st
    else st)
    ⟨fun _ => 0, 0, [], []⟩).contours

/-- The 16-case marching-squares edge table of the source (cases 5 and 10
listing both saddle connections). -/
def msEdgeTable : List (List (ℕ × ℕ)) :=
  [[], [(3, 0)], [(2, 3)], [(2, 0)], [(1, 2)], [(1, 0), (2, 3)], [(1, 3)],
   [(1, 0)], [(0, 1)], [(0, 3)], [(0, 2), (1, 3)], [(0, 2)], [(3, 2)],
   [(3, 1)], [(2, 1)], []]

/-- `getValue` of `marchingSquares`: bounds-checked read. -/
def msGetValue (binary : ℕ → ℕ) (w h : ℕ) (px py : ℤ) : ℕ :=
  if px < 0 ∨ (w : ℤ) ≤ px ∨ py < 0 ∨ (h : ℤ) ≤ py then 0
  else binary ((py * w + px).toNat)

/-- `interpolate` of `marchingSquares`: linear edge-crossing against the
threshold, midpoint when the corner values are (nearly) equal. -/
def msInterpolate (threshold : ℚ) (x1 y1 : ℚ) (v1 : ℕ) (x2 y2 : ℚ)
    (v2 : ℕ) : Pt :=
  if |(v1 : ℚ) - (v2 : ℚ)| < 1/1000 then ⟨(x1 + x2) / 2, (y1 + y2) / 2⟩
  else
    let t := (threshold - (v1 : ℚ)) / ((v2 : ℚ) - (v1 : ℚ))
    ⟨x1 + t * (x2 - x1), y1 + t * (y2 - y1)⟩

/-- `getEdgePoint` of `marchingSquares` (coordinates exactly as the source
writes them). -/
def msEdgePoint (binary : ℕ → ℕ) (w h : ℕ) (threshold : ℚ) (x y edge : ℕ) :
    Pt :=
  match edge with
  | 0 => msInterpolate threshold x (y + 1/2) (msGetValue binary w h x y)
      (x + 1) (y + 1/2) (msGetValue binary w h (x + 1) y)
  | 1 => msInterpolate threshold (x + 1/2) y (msGetValue binary w h (x + 1) y)
      (x + 1/2) (y + 1) (msGetValue binary w h (x + 1) (y + 1))
  | 2 => msInterpolate threshold x (y + 1/2) (msGetValue binary w h x (y + 1))
      (x + 1) (y + 1/2) (msGetValue binary w h (x + 1) (y + 1))
  | 3 => msInterpolate threshold (x + 1/2) y (msGetValue binary w h x y)
      (x + 1/2) (y + 1) (msGetValue binary w h x (y + 1))
  | _ => ⟨(x : ℚ), (y : ℚ)⟩

/-- The 4-bit cell classification of `marchingSquares`. -/
def msCaseIndex (binary : ℕ → ℕ) (w : ℕ) (threshold : ℚ) (x y : ℕ) : ℕ :=
  (if threshold ≤ ((binary (y * w + x) : ℕ) : ℚ) then 1 else 0) +
    (if threshold ≤ ((binary (y * w + (x + 1)) : ℕ) : ℚ) then 2 else 0) +
    (if threshold ≤ ((binary ((y + 1) * w + (x + 1)) : ℕ) : ℚ) then 4 else 0) +
    (if threshold ≤ ((binary ((y + 1) * w + x) : ℕ) : ℚ) then 8 else 0)

/-- Loop state of `traceMarchingSquaresContour`.  (The running min/max
fields of the source are dead: they are recomputed from the point list
after the loop, which is never empty.) -/
structure MSState where
  points : List Pt
  x : ℕ
  y : ℕ
  lastEdge : ℕ
  visited : List (ℕ × ℕ × ℕ × ℕ)

/-- The bounded `for` loop of `traceMarchingSquaresContour`
(`maxIterations = w·h·4`, the source's own cap). -/
def msTraceLoop (binary : ℕ → ℕ) (w h : ℕ) (threshold : ℚ)
    (startX startY : ℕ) : ℕ → MSState → MSState
  | 0, st => st
  | fuel + 1, st =>
      let nd : ℤ × ℤ := match st.lastEdge with
        | 0 => ((st.x : ℤ), (st.y : ℤ) - 1)
        | 1 => ((st.x : ℤ) + 1, (st.y : ℤ))
        | 2 => ((st.x : ℤ), (st.y : ℤ) + 1)
        | 3 => ((st.x : ℤ) - 1, (st.y : ℤ))
        | _ => ((st.x : ℤ), (st.y : ℤ))
      if nd.1 < 0 ∨ (w : ℤ) - 1 ≤ nd.1 ∨ nd.2 < 0 ∨ (h : ℤ) - 1 ≤ nd.2 then st
      else
        let nx := nd.1.toNat
        let ny := nd.2.toNat
        let ci := msCaseIndex binary w threshold nx ny
        if ci = 0 ∨ ci = 15 then st
        else
          let entryEdge := (st.lastEdge + 2) % 4
          match (msEdgeTable.getD ci []).findSome? (fun e =>
            if e.1 = entryEdge then some (e.1, e.2)
            else if e.2 = entryEdge then some (e.2, e.1)
            else none) with
          | none => st
          | some eio =>
              let st := { st with
                points := st.points ++
                  [msEdgePoint binary w h threshold nx ny eio.1,
                   msEdgePoint binary w h threshold nx ny eio.2]
                x := nx
                y := ny
                lastEdge := eio.2
                visited := st.visited ++ [(nx, ny, eio.1, eio.2)] }
              if st.x = startX ∧ st.y = startY then st
              else msTraceLoop binary w h threshold startX startY fuel st

/-- `traceMarchingSquaresContour`. -/
noncomputable def traceMarchingSquaresContour (binary : ℕ → ℕ) (w h : ℕ)
    (threshold : ℚ) (startX startY e1 e2 : ℕ)
    (visited : List (ℕ × ℕ × ℕ × ℕ)) : Contour × List (ℕ × ℕ × ℕ × ℕ) :=
  let st := msTraceLoop binary w h threshold startX startY (w * h * 4)
    { points := [msEdgePoint binary w h threshold startX startY e1,
        msEdgePoint binary w h threshold startX startY e2],
      x := startX, y := startY, lastEdge := e2, visited := visited }
  let xs := st.points.map (fun p => p.x)
  let ys := st.points.map (fun p => p.y)
  let minX := xs.foldl min (xs.headD 0)
  let maxX := xs.foldl max (xs.headD 0)
  let minY := ys.foldl min (ys.headD 0)
  let maxY := ys.foldl max (ys.headD 0)
  (⟨st.points, decide (3 ≤ st.points.length), false,
    ⟨minX, minY, maxX - minX, maxY - minY⟩,
    calculateContourArea st.points, calculateContourPerimeter st.points⟩,
   st.visited)

/-- `marchingSquares`: classify every 2×2 cell and trace each unvisited
edge connection. -/
noncomputable def marchingSquares (binary : ℕ → ℕ) (w h : ℕ)
    (threshold : ℚ := 128) : List Contour :=
  ((rowMajor (w - 1) (h - 1)).foldl
    (fun (st : List (ℕ × ℕ × ℕ × ℕ) × List Contour) p =>
      let y := p.1
      let x := p.2
      let ci := msCaseIndex binary w threshold x y
      if ci = 0 ∨ ci = 15 then st
      else
        (msEdgeTable.getD ci []).foldl (fun st2 e =>
          if (x, y, e.1, e.2) ∈ st2.1 then st2
          else
            let visited := st2.1 ++ [(x, y, e.1, e.2)]
            let r := traceMarchingSquaresContour binary w h threshold x y
              e.1 e.2 visited
            if 3 ≤ r.1.points.length then (r.2, st2.2 ++ [r.1])
            else (r.2, st2.2)) st)
    ([], [])).2

/-- Source `ContourDetectionOptions` (with the source's defaults;
`maxArea = none` plays `Infinity`). -/
structure ContourDetectionOptions where
  method : String
  minArea : ℚ := 10
  maxArea : Option ℚ := none
  simplify : Bool := true
  tolerance : ℚ := 1

/-- `filterContoursByArea`. -/
def filterContoursByArea (contours : List Contour) (minArea : ℚ)
    (maxArea : Option ℚ) : List Contour :=
  contours.filter (fun c =>
    decide (minArea ≤ c.area) &&
      (match maxArea with
       | none => true
       | some m => decide (c.area ≤ m)))

/-- `simplifyContour`: decimation keeping points at distance ≥ tolerance
from the last kept point; first and last points always kept. -/
noncomputable def simplifyContour (points : List Pt) (tolerance : ℚ) :
    List Pt :=
  if points.length < 3 then points
  else
    let first := points.headD ⟨0, 0⟩
    let mid := (points.drop 1).take (points.length - 2)
    let r := mid.foldl (fun (st : List Pt × Pt) p =>
      let dist := Real.sqrt ((((p.x - st.2.x) ^ 2 + (p.y - st.2.y) ^ 2 : ℚ)) : ℝ)
      if (tolerance : ℝ) ≤ dist then (st.1 ++ [p], p) else st)
      ([first], first)
    r.1 ++ [points.getLastD ⟨0, 0⟩]

/-- `detectContours` of the contour-detector module: dispatch on the
method selector (unknown selectors throw), then filter by area and
optionally simplify. -/
noncomputable def detectContours (binary : ℕ → ℕ) (w h : ℕ)
    (options : ContourDetectionOptions) : Except String (List Contour) :=
  let traced : Except String (List Contour) :=
    if options.method = "moore" then .ok (mooreContourTracing binary w h)
    else if options.method = "suzuki" then .ok (suzukiContourTracing binary w h)
    else if options.method = "marching-squares" then
      .ok (marchingSquares binary w h)
    else .error ("Unknown contour detection method: " ++ options.method)
  traced.map (fun contours =>
    let contours := filterContoursByArea contours options.minArea options.maxArea
    if options.simplify then
      contours.map (fun c => { c with points := simplifyContour c.points options.tolerance })
    else contours)

-- ============================================================================
-- Gap filling (svg-refiner.ts, findConnectedComponents / fillGaps)
-- ============================================================================

/-- The 8-connected neighbor offsets `(dy, dx)` of the BFS, in the
source's scan order (skipping `(0, 0)`). -/
def neighborOffsets8 : List (ℤ × ℤ) :=
  [(-1, -1), (-1, 0), (-1, 1), (0, -1), (0, 1), (1, -1), (1, 0), (1, 1)]

/-- The BFS worklist loop of `findConnectedComponents`.  Every enqueued
pixel is freshly marked visited, so at most `w·h` dequeues happen and
`w * h + 1` fuel units dominate the loop. -/
def bfsLoop (binary : ℕ → ℕ) (w h : ℕ) :
    ℕ → List ℕ → (ℕ → Bool) → List ℕ → List ℕ × (ℕ → Bool)
  | 0, _, visited, comp => (comp, visited)
  | fuel + 1, queue, visited, comp =>
      match queue with
      | [] => (comp, visited)
      | current :: rest =>
          let comp := comp ++ [current]
          let cx := current % w
          let cy := current / w
          let st := neighborOffsets8.foldl
            (fun (st : List ℕ × (ℕ → Bool)) d =>
              let nx := (cx : ℤ) + d.2
              let ny := (cy : ℤ) + d.1
              if 0 ≤ nx ∧ nx < (w : ℤ) ∧ 0 ≤ ny ∧ ny < (h : ℤ) then
                let nIdx := (ny * w + nx).toNat
                if 0 < binary nIdx ∧ st.2 nIdx = false then
                  (st.1 ++ [nIdx], Function.update st.2 nIdx true)
                else st
              else st)
            (rest, visited)
          bfsLoop binary w h fuel st.1 st.2 comp

/-- `findConnectedComponents` of svg-refiner.ts: BFS over 8-connected
foreground pixels, components in scan order. -/
def findConnectedComponents (binary : ℕ → ℕ) (w h : ℕ) : List (List ℕ) :=
  ((rowMajor w h).foldl (fun (st : (ℕ → Bool) × List (List ℕ)) p =>
    let idx := p.1 * w + p.2
    if 0 < binary idx ∧ st.1 idx = false then
      let visited := Function.update st.1 idx true
      let r := bfsLoop binary w h (w * h + 1) [idx] visited []
      (r.2, st.2 ++ [r.1])
    else st)
    (fun _ => false, [])).2

/-- `fillGaps` of svg-refiner.ts: find unmatched reference clusters, trace
each large cluster with Moore contours, and append the traced paths. -/
noncomputable def fillGaps (existingPaths : List PathData)
    (referenceEdges svgEdges : ℕ → ℕ) (w h : ℕ)
    (gapFillMinCluster : ℕ := 20) (distanceTolerance : ℚ := 2) :
    List PathData :=
  let svgDT := computeDistanceTransform svgEdges w h
  let unmatchedMask : ℕ → ℕ := fun i =>
    if i < w * h ∧ 0 < referenceEdges i ∧ distanceTolerance < svgDT i then 255
    else 0
  let unmatchedCount := (List.range (w * h)).countP (fun i =>
    decide (0 < referenceEdges i ∧ distanceTolerance < svgDT i))
  if unmatchedCount < gapFillMinCluster then existingPaths
  else
    let clusters := findConnectedComponents unmatchedMask w h
    let newPaths := clusters.foldl (fun acc cluster =>
      if cluster.length < gapFillMinCluster then acc
      else
        let clusterMask : ℕ → ℕ := fun i => if i ∈ cluster then 255 else 0
        match detectContours clusterMask w h
          { method := "moore", minArea := 5, simplify := true,
            tolerance := 1 } with
        | .error _ => acc
        | .ok contours =>
            acc ++ (contours.foldl (fun acc2 contour =>
              if contour.points.length < 3 then acc2
              else
                let simplified := douglasPeucker contour.points 1
                acc2 ++
                  [{ points := simplified, color := ⟨0, 0, 0, 255⟩,
                     strokeWidth := 1, closed := contour.isClosed,
                     id := some ("gap-fill-" ++
                       toString (acc.length + acc2.length)) }]) []))
      []
    existingPaths ++ newPaths

-- ============================================================================
-- Refinement orchestrator (svg-refiner.ts, refineConversion)
-- ============================================================================

/-- Source `RefinementOptions`, with `DEFAULT_REFINEMENT_OPTIONS` as the
field defaults (the source merges user options over these). -/
structure RefinementOptions where
  enabled : Bool := true
  targetAccuracy : ℚ := 85/100
  maxIterations : ℕ := 3
  snapRadius : ℕ := 3
  gapFillMinCluster : ℕ := 20
  spuriousThreshold : ℚ := 7/10
  distanceTolerance : ℚ := 2

/-- Source `RefinementResult` (wall-clock `refinementTime` omitted). -/
structure RefinementResult where
  paths : List PathData
  beforeScore : RefinementScore
  afterScore : RefinementScore
  iterationsUsed : ℕ

/-- The `for (iter …)` loop of `refineConversion`, with the remaining
iteration count as the structural argument.  (The rasterization stored in
`currentSvgEdges` at the top of the source loop is dead: it is
re-assigned before its only use.) -/
noncomputable def refineLoop (referenceEdges : ℕ → ℕ) (w h : ℕ)
    (opts : RefinementOptions) :
    ℕ → List PathData → RefinementScore → ℕ →
      List PathData × RefinementScore × ℕ
  | 0, paths, score, used => (paths, score, used)
  | n + 1, paths, score, used =>
      if opts.targetAccuracy ≤ score.f1Score then (paths, score, used)
      else
        let paths := if score.precision < opts.targetAccuracy then
            removeSpuriousPaths paths referenceEdges w h opts.spuriousThreshold 2
          else paths
        let paths := snapPathsToEdges paths referenceEdges w h opts.snapRadius
        let paths := adaptiveResimplify paths referenceEdges w h
          opts.distanceTolerance
        let paths := if score.«recall» < opts.targetAccuracy then
            fillGaps paths referenceEdges (rasterizePaths paths w h) w h
              opts.gapFillMinCluster opts.distanceTolerance
          else paths
        let score := computeAccuracy referenceEdges (rasterizePaths paths w h)
          w h opts.distanceTolerance
        refineLoop referenceEdges w h opts n paths score (used + 1)

/-- `refineConversion` of svg-refiner.ts. -/
noncomputable def refineConversion (paths : List PathData)
    (referenceEdges : ℕ → ℕ) (w h : ℕ)
    (opts : RefinementOptions := {}) : RefinementResult :=
  let initialEdges := rasterizePaths paths w h
  let beforeScore := computeAccuracy referenceEdges initialEdges w h
    opts.distanceTolerance
  let r := refineLoop referenceEdges w h opts opts.maxIterations paths
    beforeScore 0
  { paths := r.1, beforeScore := beforeScore, afterScore := r.2.1,
    iterationsUsed := r.2.2 }

theorem refineLoop_used_le (referenceEdges : ℕ → ℕ) (w h : ℕ)
    (opts : RefinementOptions) (n : ℕ) :
    ∀ paths score used,
      (refineLoop referenceEdges w h opts n paths score used).2.2 ≤ used + n := by
  induction n with
  | zero => intro paths score used; simp [refineLoop]
  | succ n ih =>
      intro paths score used
      simp only [refineLoop]
      split
      · exact Nat.le_add_right used (n + 1)
      · exact le_trans (ih _ _ (used + 1)) (by omega)

theorem refineLoop_met (referenceEdges : ℕ → ℕ) (w h : ℕ)
    (opts : RefinementOptions) (n : ℕ) (paths : List PathData)
    (score : RefinementScore) (used : ℕ)
    (hmet : opts.targetAccuracy ≤ score.f1Score) :
    refineLoop referenceEdges w h opts n paths score used
      = (paths, score, used) := by
  cases n with
  | zero => rfl
  | succ n => simp [refineLoop, hmet]

/-- **C4.**  `refineConversion` records the score of the initial
rasterization as `beforeScore`; `iterationsUsed` (the number of executed
loop bodies) never exceeds `maxIterations`; and when the initial F1
already meets the target the function stops without refining:
`iterationsUsed = 0`, the paths are returned unchanged, and the after
score equals the before score. -/
theorem refineConversion_spec (paths : List PathData)
    (referenceEdges : ℕ → ℕ) (w h : ℕ) (opts : RefinementOptions) :
    (refineConversion paths referenceEdges w h opts).beforeScore
        = computeAccuracy referenceEdges (rasterizePaths paths w h) w h
          opts.distanceTolerance ∧
      (refineConversion paths referenceEdges w h opts).iterationsUsed
        ≤ opts.maxIterations ∧
      (opts.targetAccuracy ≤ (computeAccuracy referenceEdges
            (rasterizePaths paths w h) w h opts.distanceTolerance).f1Score →
        (refineConversion paths referenceEdges w h opts).iterationsUsed = 0 ∧
          (refineConversion paths referenceEdges w h opts).paths = paths ∧
          (refineConversion paths referenceEdges w h opts).afterScore
            = (refineConversion paths referenceEdges w h opts).beforeScore) := by
  refine ⟨rfl, ?_, ?_⟩
  · have := refineLoop_used_le referenceEdges w h opts opts.maxIterations
      paths (computeAccuracy referenceEdges (rasterizePaths paths w h) w h
        opts.distanceTolerance) 0
    simpa [refineConversion] using this
  · intro hmet
    have hloop := refineLoop_met referenceEdges w h opts opts.maxIterations
      paths (computeAccuracy referenceEdges (rasterizePaths paths w h) w h
        opts.distanceTolerance) 0 hmet
    refine ⟨?_, ?_, ?_⟩ <;>
      simp [refineConversion, hloop]

/-- **C4 witness**: empty path list against an empty 1×1 reference with
`targetAccuracy = 0`; the initial F1 of 0 meets the target, so zero
iterations run and the input is returned unchanged. -/
theorem refineConversion_spec_witness :
    (({ targetAccuracy := 0 } : RefinementOptions).targetAccuracy
        ≤ (computeAccuracy (fun _ => 0) (rasterizePaths [] 1 1) 1 1
          ({ targetAccuracy := 0 } : RefinementOptions).distanceTolerance).f1Score) ∧
      ((refineConversion [] (fun _ => 0) 1 1
            { targetAccuracy := 0 }).iterationsUsed = 0 ∧
        (refineConversion [] (fun _ => 0) 1 1 { targetAccuracy := 0 }).paths
          = [] ∧
        (refineConversion [] (fun _ => 0) 1 1
            { targetAccuracy := 0 }).afterScore
          = (refineConversion [] (fun _ => 0) 1 1
            { targetAccuracy := 0 }).beforeScore) :=
  ⟨by with_unfolding_all decide,
    (refineConversion_spec [] (fun _ => 0) 1 1 { targetAccuracy := 0 }).2.2
      (by with_unfolding_all decide)⟩

-- ============================================================================
-- Gaussian blur (image-processor.ts gaussianBlur and the API route's
-- gaussianBlur).  JS numbers are modelled as reals (Math.exp appears in the
-- kernels); Uint8ClampedArray writes clamp the rounded value to [0, 255].
-- ============================================================================

/-- JS `Math.round` on a real operand: `⌊r + 1/2⌋` (half-up). -/
noncomputable def jsRoundR (r : ℝ) : ℤ := ⌊r + 1/2⌋

/-- A `Uint8ClampedArray` store of an already-rounded integer value. -/
def clampU8 (z : ℤ) : ℤ := min 255 (max 0 z)

/-- `halfKernel` of both Gaussian blurs.  The source computes
`kernelSize = Math.ceil(sigma * 3) * 2 + 1` and
`halfKernel = Math.floor(kernelSize / 2) = Math.ceil(sigma * 3)`; for the
`σ > 0` regime of every call site this is `⌈3σ⌉ ≥ 1`. -/
def gHalf (σ : ℚ) : ℕ := (⌈σ * 3⌉).toNat

/-- `kernelSize = Math.ceil(sigma * 3) * 2 + 1`. -/
def gSize (σ : ℚ) : ℕ := 2 * gHalf σ + 1

/-- One unnormalized 1-D Gaussian sample
`Math.exp(-(x * x) / (2 * sigma * sigma))`. -/
noncomputable def gauss1D (σ : ℚ) (x : ℤ) : ℝ :=
  Real.exp (-((x * x : ℤ) : ℝ) / (2 * (σ : ℝ) * (σ : ℝ)))

/-- The API route's unnormalized 1-D kernel (`kernel.push(value)` for
`i = 0 .. kernelSize-1`, `x = i - halfKernel`). -/
noncomputable def routeKernelRaw (σ : ℚ) : List ℝ :=
  (List.range (gSize σ)).map (fun (i : ℕ) => gauss1D σ ((i : ℤ) - gHalf σ))

/-- The API route's normalized kernel (`kernel[i] /= sum`). -/
noncomputable def routeKernel (σ : ℚ) : List ℝ :=
  (routeKernelRaw σ).map (fun v => v / (routeKernelRaw σ).sum)

/-- image-processor.ts builds its "kernel" from `kernelSize²` 2-D entries
(`i`, `j` both ranging over the kernel size,
`value = Math.exp(-(x² + y²) / (2σ²))` with `x = i - half`,
`y = j - half`), flattened in push order. -/
noncomputable def ipKernelRaw (σ : ℚ) : List ℝ :=
  (List.range (gSize σ)).flatMap (fun (i : ℕ) =>
    (List.range (gSize σ)).map (fun (j : ℕ) =>
      Real.exp (-((((i : ℤ) - gHalf σ) * ((i : ℤ) - gHalf σ) +
          ((j : ℤ) - gHalf σ) * ((j : ℤ) - gHalf σ) : ℤ) : ℝ) /
        (2 * (σ : ℝ) * (σ : ℝ)))))

/-- image-processor.ts then normalizes the flattened 2-D table by its own
sum (`kernel[i] /= sum`); the separable passes below index only its first
`kernelSize` entries via `kernel[k + halfKernel]`. -/
noncomputable def ipKernel (σ : ℚ) : List ℝ :=
  (ipKernelRaw σ).map (fun v => v / (ipKernelRaw σ).sum)

/-- The horizontal pass shared verbatim by both blurs: for each output
cell, sum `data[(y*width + xx) * 4 + c] * kernel[k + halfKernel]` over
`k = -halfKernel .. halfKernel` with `xx = clamp(x + k, 0, width-1)`
(here `i = k + halfKernel` ranges over `0 .. 2·half`).  The `Float32Array`
is zero outside the written range. -/
noncomputable def blurTemp (data : ℕ → ℕ) (w h : ℕ) (kernel : List ℝ)
    (half : ℕ) : ℕ → ℝ :=
  fun idx =>
    if idx < w * h * 4 then
      let c := idx % 4
      let p := idx / 4
      let x := p % w
      let y := p / w
      (((List.range (2 * half + 1)).map (fun (i : ℕ) =>
        let xx : ℤ := min (max ((x : ℤ) + ((i : ℤ) - half)) 0) ((w : ℤ) - 1)
        (data ((((y : ℤ) * w + xx).toNat) * 4 + c) : ℝ) *
          kernel.getD i 0)).sum)
    else 0

/-- One summand of the vertical pass at output cell `(y, x, c)`: the
horizontal pass's `temp[(yy*width + x) * 4 + c]` with
`yy = clamp(y + k, 0, height-1)`, times `kernel[k + halfKernel]`
(`i = k + halfKernel`). -/
noncomputable def blurVAt (data : ℕ → ℕ) (w h : ℕ) (kernel : List ℝ)
    (half y x c i : ℕ) : ℝ :=
  let yy : ℤ := min (max ((y : ℤ) + ((i : ℤ) - half)) 0) ((h : ℤ) - 1)
  blurTemp data w h kernel half ((yy * w + x).toNat * 4 + c) *
    kernel.getD i 0

/-- The vertical pass plus the rounded, clamped store shared verbatim by
both blurs (`result[idx] = Math.round(...)` into a `Uint8ClampedArray`). -/
noncomputable def blurOut (data : ℕ → ℕ) (w h : ℕ) (kernel : List ℝ)
    (half : ℕ) : ℕ → ℤ :=
  fun idx =>
    if idx < w * h * 4 then
      clampU8 (jsRoundR (((List.range (2 * half + 1)).map
        (blurVAt data w h kernel half (idx / 4 / w) (idx / 4 % w)
          (idx % 4))).sum))
    else 0

/-- The API route's `gaussianBlur` (1-D kernel, separable passes). -/
noncomputable def routeGaussianBlur (data : ℕ → ℕ) (w h : ℕ) (σ : ℚ) :
    ℕ → ℤ :=
  blurOut data w h (routeKernel σ) (gHalf σ)

/-- image-processor.ts's `gaussianBlur`: identical passes, but the kernel
lookups `kernel[k + halfKernel]` hit only the first row of the flattened,
`kernelSize²`-normalized 2-D table. -/
noncomputable def ipGaussianBlur (data : ℕ → ℕ) (w h : ℕ) (σ : ℚ) :
    ℕ → ℤ :=
  blurOut data w h (ipKernel σ) (gHalf σ)

/-- Sum of the first `n` entries of an integer-valued image. -/
def imgSum (f : ℕ → ℤ) (n : ℕ) : ℤ := ((List.range n).map f).sum

/-- Sum of the first `n` entries of a `Uint8ClampedArray`-valued image. -/
def imgSumN (f : ℕ → ℕ) (n : ℕ) : ℕ := ((List.range n).map f).sum

/-- 1×1 all-white RGBA input for the image-processor blur counterexample
(the blur of a 1×1 image only ever reads the four in-range cells). -/
def c2Const : ℕ → ℕ := fun _ => 255

/-- 3×1 RGBA input whose center pixel is white, for the route blur
counterexample. -/
def c2Route : ℕ → ℕ := fun i => if 4 ≤ i ∧ i < 8 then 255 else 0

theorem sum_map_const_mul {α : Type} (l : List α) (c : ℝ) (f : α → ℝ) :
    (l.map (fun i => c * f i)).sum = c * (l.map f).sum := by
  induction l with
  | nil => simp
  | cons a l ih => simp [ih, mul_add]

theorem sum_map_div (l : List ℝ) (s : ℝ) :
    (l.map (fun v => v / s)).sum = l.sum / s := by
  induction l with
  | nil => simp
  | cons a l ih => simp [ih, add_div]

theorem getD_map_div (l : List ℝ) (s : ℝ) (i : ℕ) :
    (l.map (fun v => v / s)).getD i 0 = l.getD i 0 / s := by
  induction l generalizing i with
  | nil => simp
  | cons a l ih =>
      cases i with
      | zero => simp
      | succ n => simpa using ih n

theorem getD_map_range (g : ℕ → ℝ) (m i : ℕ) (hi : i < m) :
    ((List.range m).map g).getD i 0 = g i := by
  simp [List.getD_eq_getElem?_getD, List.getElem?_range hi]

theorem sum_range_getD (l : List ℝ) :
    ((List.range l.length).map (fun i => l.getD i 0)).sum = l.sum := by
  induction l with
  | nil => simp
  | cons a l ih =>
      rw [List.length_cons, List.range_succ_eq_map, List.map_cons,
        List.map_map]
      have hcomp : ((fun i => (a :: l).getD i 0) ∘ Nat.succ)
          = fun i => l.getD i 0 := by
        funext i
        simp
      rw [hcomp, List.sum_cons, List.getD_cons_zero, ih]
      simp

theorem getD_nonneg (l : List ℝ) (h : ∀ x ∈ l, 0 ≤ x) (i : ℕ) :
    0 ≤ l.getD i 0 := by
  induction l generalizing i with
  | nil => simp
  | cons a tl ih =>
      cases i with
      | zero => exact h a (by simp)
      | succ n => simpa using ih (fun x hx => h x (by simp [hx])) n

/-- On a constant image, either horizontal pass yields the constant times
the sum of the kernel entries the pass reads. -/
theorem blurTemp_const_eval (v w h : ℕ) (kern : List ℝ) (half idx : ℕ)
    (hidx : idx < w * h * 4) :
    blurTemp (fun _ => v) w h kern half idx
      = (v : ℝ) *
        ((List.range (2 * half + 1)).map (fun i => kern.getD i 0)).sum := by
  unfold blurTemp
  rw [if_pos hidx]
  exact sum_map_const_mul _ _ _

/-- On a constant image, either blur's output cell is the rounded, clamped
`v·K²` where `K` is the sum of the kernel entries the passes read. -/
theorem blurOut_const_eval (v w h : ℕ) (kern : List ℝ) (half idx : ℕ)
    (hidx : idx < w * h * 4) :
    blurOut (fun _ => v) w h kern half idx
      = clampU8 (jsRoundR ((v : ℝ) *
          ((List.range (2 * half + 1)).map (fun i => kern.getD i 0)).sum *
          ((List.range (2 * half + 1)).map (fun i => kern.getD i 0)).sum)) := by
  have hw : 0 < w := by
    rcases Nat.eq_zero_or_pos w with rfl | hw
    · simp at hidx
    · exact hw
  have hh : 0 < h := by
    rcases Nat.eq_zero_or_pos h with rfl | hh
    · simp at hidx
    · exact hh
  unfold blurOut
  rw [if_pos hidx]
  have hx : idx / 4 % w < w := Nat.mod_lt _ hw
  have hterm : ∀ i ∈ List.range (2 * half + 1),
      blurVAt (fun _ => v) w h kern half (idx / 4 / w) (idx / 4 % w)
        (idx % 4) i
      = ((v : ℝ) *
          ((List.range (2 * half + 1)).map (fun j => kern.getD j 0)).sum) *
        kern.getD i 0 := by
    intro i _
    unfold blurVAt
    dsimp only
    have hyy0 : (0 : ℤ) ≤ min (max ((↑(idx / 4 / w) : ℤ) + ((i : ℤ) - half)) 0)
        ((h : ℤ) - 1) := by
      refine le_min (le_max_right _ _) ?_
      omega
    have hyy1 : min (max ((↑(idx / 4 / w) : ℤ) + ((i : ℤ) - half)) 0)
        ((h : ℤ) - 1) ≤ (h : ℤ) - 1 := min_le_right _ _
    obtain ⟨m, hm⟩ := Int.eq_ofNat_of_zero_le hyy0
    rw [hm] at hyy1
    have hmh : m ≤ h - 1 := by omega
    have hindex : ((min (max ((↑(idx / 4 / w) : ℤ) + ((i : ℤ) - half)) 0)
        ((h : ℤ) - 1)) * w + ↑(idx / 4 % w)).toNat * 4 + idx % 4
        = (m * w + idx / 4 % w) * 4 + idx % 4 := by
      rw [hm]
      have hcast : ((m : ℤ) * w + ↑(idx / 4 % w)) = ((m * w + idx / 4 % w : ℕ) : ℤ) := by
        push_cast
        ring
      rw [hcast, Int.toNat_natCast]
    rw [hindex]
    have hmw : m * w ≤ (h - 1) * w := Nat.mul_le_mul_right w hmh
    have h3 : (h - 1) * w + w = h * w := by
      conv_rhs => rw [← Nat.succ_pred_eq_of_pos hh]
      rw [Nat.succ_mul]
      rfl
    have hlt : m * w + idx / 4 % w < w * h :=
      calc m * w + idx / 4 % w < m * w + w := Nat.add_lt_add_left hx _
        _ ≤ (h - 1) * w + w := Nat.add_le_add_right hmw w
        _ = h * w := h3
        _ = w * h := Nat.mul_comm h w
    have hc4 : idx % 4 < 4 := Nat.mod_lt _ (by norm_num)
    have hin : (m * w + idx / 4 % w) * 4 + idx % 4 < w * h * 4 :=
      calc (m * w + idx / 4 % w) * 4 + idx % 4
          < (m * w + idx / 4 % w) * 4 + 4 := Nat.add_lt_add_left hc4 _
        _ = (m * w + idx / 4 % w + 1) * 4 := by ring
        _ ≤ (w * h) * 4 := Nat.mul_le_mul_right 4 (Nat.succ_le_of_lt hlt)
    rw [blurTemp_const_eval v w h kern half _ hin]
  rw [List.map_congr_left hterm, sum_map_const_mul]

theorem gHalf_c2 : gHalf (14/10) = 5 := by with_unfolding_all decide

theorem gSize_c2 : gSize (14/10) = 11 := by with_unfolding_all decide

/-- The separable passes of image-processor.ts index only the first
`kernelSize` entries of the flattened 2-D table: those are the row `i = 0`
entries. -/
theorem ipKernelRaw_getD_row0 (σ : ℚ) (i : ℕ) (hi : i < gSize σ) :
    (ipKernelRaw σ).getD i 0
      = Real.exp (-(((((0 : ℕ) : ℤ) - gHalf σ) * (((0 : ℕ) : ℤ) - gHalf σ) +
          ((i : ℤ) - gHalf σ) * ((i : ℤ) - gHalf σ) : ℤ) : ℝ) /
        (2 * (σ : ℝ) * (σ : ℝ))) := by
  unfold ipKernelRaw
  have houter : List.range (gSize σ)
      = 0 :: List.map Nat.succ (List.range (2 * gHalf σ)) := by
    rw [show gSize σ = 2 * gHalf σ + 1 from rfl, List.range_succ_eq_map]
  rw [houter, List.flatMap_cons, ← houter]
  rw [List.getD_append _ _ _ _ (by simpa using hi)]
  exact getD_map_range _ _ i hi

theorem ipKernelRaw_entries_pos (σ : ℚ) : ∀ x ∈ ipKernelRaw σ, 0 < x := by
  intro x hx
  unfold ipKernelRaw at hx
  obtain ⟨i, _, hx2⟩ := List.mem_flatMap.mp hx
  obtain ⟨j, _, rfl⟩ := List.mem_map.mp hx2
  exact Real.exp_pos _

/-- The 2-D table's sum is at least its central entry `exp 0 = 1`. -/
theorem ipKernelRaw_sum_ge_one (σ : ℚ) : 1 ≤ (ipKernelRaw σ).sum := by
  have hmem : (1 : ℝ) ∈ ipKernelRaw σ := by
    unfold ipKernelRaw
    refine List.mem_flatMap.mpr ⟨gHalf σ,
      List.mem_range.mpr (by show gHalf σ < 2 * gHalf σ + 1; omega), ?_⟩
    refine List.mem_map.mpr ⟨gHalf σ,
      List.mem_range.mpr (by show gHalf σ < 2 * gHalf σ + 1; omega), ?_⟩
    simp
  exact List.single_le_sum
    (fun x hx => le_of_lt (ipKernelRaw_entries_pos σ x hx)) 1 hmem

/-- Each first-row entry of the table is at most `exp(-625/98)` at the
default `σ = 1.4`: the row is at squared distance `≥ 25` from the center. -/
theorem ip_row0_le (i : ℕ) (hi : i < 11) :
    (ipKernelRaw (14/10)).getD i 0 ≤ Real.exp (-(625/98)) := by
  rw [ipKernelRaw_getD_row0 (14/10) i (by rw [gSize_c2]; exact hi), gHalf_c2]
  apply Real.exp_le_exp.mpr
  have hcast : ((14/10 : ℚ) : ℝ) = 7/5 := by norm_num
  rw [hcast]
  push_cast
  rw [neg_div, neg_le_neg_iff]
  rw [le_div_iff (by norm_num : (0:ℝ) < 2 * (7/5) * (7/5))]
  nlinarith [sq_nonneg ((i : ℝ) - 5)]

theorem ipK_nonneg :
    0 ≤ ((List.range 11).map (fun i => (ipKernel (14/10)).getD i 0)).sum := by
  apply List.sum_nonneg
  intro x hx
  obtain ⟨i, _, rfl⟩ := List.mem_map.mp hx
  unfold ipKernel
  rw [getD_map_div]
  apply div_nonneg
  · exact getD_nonneg _
      (fun x hx => le_of_lt (ipKernelRaw_entries_pos _ x hx)) i
  · linarith [ipKernelRaw_sum_ge_one (14/10)]

/-- The kernel weight the passes actually read sums to at most
`11·exp(-625/98)`: eleven first-row entries, each `≤ exp(-625/98)`,
normalized by a total `≥ 1`. -/
theorem ipK_le :
    ((List.range 11).map (fun i => (ipKernel (14/10)).getD i 0)).sum
      ≤ 11 * Real.exp (-(625/98)) := by
  have hb : ∀ x ∈ (List.range 11).map (fun i => (ipKernel (14/10)).getD i 0),
      x ≤ Real.exp (-(625/98)) := by
    intro x hx
    obtain ⟨i, hi, rfl⟩ := List.mem_map.mp hx
    rw [List.mem_range] at hi
    unfold ipKernel
    rw [getD_map_div]
    have ht0 : 0 ≤ (ipKernelRaw (14/10)).getD i 0 := getD_nonneg _
      (fun x hx => le_of_lt (ipKernelRaw_entries_pos _ x hx)) i
    calc (ipKernelRaw (14/10)).getD i 0 / (ipKernelRaw (14/10)).sum
        ≤ (ipKernelRaw (14/10)).getD i 0 :=
          div_le_self ht0 (ipKernelRaw_sum_ge_one _)
      _ ≤ Real.exp (-(625/98)) := ip_row0_le i hi
  have h := List.sum_le_card_nsmul
    ((List.range 11).map (fun i => (ipKernel (14/10)).getD i 0))
    (Real.exp (-(625/98))) hb
  simpa [nsmul_eq_mul] using h

theorem c2_exp_bound :
    30855 * (Real.exp (-(625/98)) * Real.exp (-(625/98))) < 1/2 := by
  rw [← Real.exp_add]
  have harg : (-(625/98) : ℝ) + -(625/98) = -(625/49) := by norm_num
  rw [harg]
  have h12 : Real.exp (-(625/49)) < Real.exp (-12) :=
    Real.exp_lt_exp.mpr (by norm_num)
  have hexp12 : (61710 : ℝ) < Real.exp 12 := by
    have h1 : (2.7182818283 : ℝ) ^ (12 : ℕ) ≤ Real.exp 1 ^ (12 : ℕ) :=
      pow_le_pow_left (by norm_num) (le_of_lt Real.exp_one_gt_d9) 12
    have h2 : Real.exp 1 ^ (12 : ℕ) = Real.exp 12 := by
      rw [← Real.exp_nat_mul]
      norm_num
    have h3 : (61710 : ℝ) < (2.7182818283 : ℝ) ^ (12 : ℕ) := by norm_num
    linarith
  have hneg : Real.exp (-12 : ℝ) = (Real.exp 12)⁻¹ := Real.exp_neg 12
  have hinv : (Real.exp 12)⁻¹ < (61710 : ℝ)⁻¹ := by
    apply inv_lt_inv_of_lt (by norm_num) hexp12
  have hlt : Real.exp (-(625/49)) < (61710 : ℝ)⁻¹ := by
    rw [hneg] at h12
    linarith
  have hfin := mul_lt_mul_of_pos_left hlt (by norm_num : (0:ℝ) < 30855)
  have hval : (30855 : ℝ) * (61710 : ℝ)⁻¹ = 1/2 := by norm_num
  linarith

/-- Every output cell of the image-processor blur on the 1×1 all-white
image is zero: the mis-indexed kernel weights sum to `K ≤ 11·exp(-625/98)`,
so the output value `255·K² < 1/2` rounds to 0. -/
theorem ip_out_zero (idx : ℕ) : ipGaussianBlur c2Const 1 1 (14/10) idx = 0 := by
  by_cases hidx : idx < 1 * 1 * 4
  · unfold ipGaussianBlur
    rw [show c2Const = (fun _ => 255) from rfl,
      blurOut_const_eval 255 1 1 _ _ idx hidx]
    rw [show 2 * gHalf (14/10) + 1 = 11 by rw [gHalf_c2]]
    have h0 := ipK_nonneg
    have h1 := ipK_le
    set K := ((List.range 11).map (fun i => (ipKernel (14/10)).getD i 0)).sum
      with hKdef
    have hE : (0 : ℝ) ≤ Real.exp (-(625/98)) := (Real.exp_pos _).le
    have hKK : K * K ≤ (11 * Real.exp (-(625/98))) * (11 * Real.exp (-(625/98))) :=
      mul_le_mul h1 h1 h0 (by positivity)
    have hV1 : (255 : ℝ) * K * K < 1/2 := by
      nlinarith [c2_exp_bound]
    have hV0 : (0 : ℝ) ≤ 255 * K * K := by positivity
    unfold jsRoundR
    push_cast
    have hfl : ⌊(255 : ℝ) * K * K + 1/2⌋ = 0 := by
      apply Int.floor_eq_zero_iff.mpr
      constructor
      · linarith
      · linarith
    rw [hfl]
    rfl
  · unfold ipGaussianBlur blurOut
    rw [if_neg hidx]

theorem c2_ip_sum : imgSum (ipGaussianBlur c2Const 1 1 (14/10)) 4 = 0 := by
  unfold imgSum
  rw [show List.range 4 = [0, 1, 2, 3] from rfl]
  simp [ip_out_zero]

theorem routeKernelRaw_length (σ : ℚ) :
    (routeKernelRaw σ).length = 2 * gHalf σ + 1 := by
  simp [routeKernelRaw, gSize]

theorem routeKernelRaw_pos (σ : ℚ) : ∀ x ∈ routeKernelRaw σ, 0 < x := by
  intro x hx
  obtain ⟨i, _, rfl⟩ := List.mem_map.mp hx
  exact Real.exp_pos _

theorem routeKernelRaw_sum_pos (σ : ℚ) : 0 < (routeKernelRaw σ).sum := by
  have hne : routeKernelRaw σ ≠ [] := by
    intro hcon
    have hlen := routeKernelRaw_length σ
    rw [hcon] at hlen
    simp at hlen
  exact List.sum_pos _ (routeKernelRaw_pos σ) hne

/-- The route's normalized 1-D kernel sums to exactly 1 over the indices
the passes read. -/
theorem routeK_one (σ : ℚ) :
    ((List.range (2 * gHalf σ + 1)).map
      (fun i => (routeKernel σ).getD i 0)).sum = 1 := by
  have hlen : (routeKernel σ).length = 2 * gHalf σ + 1 := by
    simp [routeKernel, routeKernelRaw, gSize]
  have h := sum_range_getD (routeKernel σ)
  rw [hlen] at h
  rw [h]
  unfold routeKernel
  rw [sum_map_div]
  exact div_self (ne_of_gt (routeKernelRaw_sum_pos σ))

theorem routeKernel_getD_nonneg (σ : ℚ) (i : ℕ) :
    0 ≤ (routeKernel σ).getD i 0 := by
  unfold routeKernel
  rw [getD_map_div]
  apply div_nonneg
  · exact getD_nonneg _ (fun x hx => (routeKernelRaw_pos σ x hx).le) i
  · exact (routeKernelRaw_sum_pos σ).le

theorem c2_sum_consts (n v : ℕ) :
    ((List.range n).map (fun _ => (v : ℤ))).sum
      = (((List.range n).map (fun _ => v)).sum : ℤ) := by
  induction n with
  | zero => simp
  | succ m ih =>
      rw [List.range_succ, List.map_append, List.map_append,
        List.sum_append, List.sum_append, ih]
      push_cast
      simp

/-- **C2 (amended).**  The route's 1-D-kernel Gaussian blur maps every
constant image to itself exactly (the normalized kernel sums to 1, both
clamped passes reproduce the constant, and rounding/clamping fix the
integer value), so on constant images it is exactly mass-preserving.  The
general claim fails: see the counterexample. -/
theorem route_gaussianBlur_const_exact (w h v : ℕ) (σ : ℚ)
    (hσ : 0 < σ) (hv : v ≤ 255) :
    (∀ idx, idx < w * h * 4 →
        routeGaussianBlur (fun _ => v) w h σ idx = v) ∧
      imgSum (routeGaussianBlur (fun _ => v) w h σ) (w * h * 4)
        = (imgSumN (fun _ => v) (w * h * 4) : ℤ) := by
  have hpt : ∀ idx, idx < w * h * 4 →
      routeGaussianBlur (fun _ => v) w h σ idx = v := by
    intro idx hidx
    unfold routeGaussianBlur
    rw [blurOut_const_eval v w h _ _ idx hidx, routeK_one, mul_one, mul_one]
    unfold jsRoundR
    have hfl : ⌊(v : ℝ) + 1/2⌋ = (v : ℤ) := by
      rw [Int.floor_eq_iff]
      constructor
      · push_cast
        linarith
      · push_cast
        linarith
    rw [hfl]
    unfold clampU8
    have hv' : (v : ℤ) ≤ 255 := by exact_mod_cast hv
    have hv0 : (0 : ℤ) ≤ (v : ℤ) := Int.ofNat_nonneg v
    omega
  refine ⟨hpt, ?_⟩
  unfold imgSum imgSumN
  rw [List.map_congr_left (fun i hi => hpt i (List.mem_range.mp hi))]
  exact c2_sum_consts (w * h * 4) v

/-- **C2 amended witness**: the hypotheses discharged at `w = h = 1`,
`v = 255`, `σ = 1`. -/
theorem route_gaussianBlur_const_exact_witness :
    ((0 : ℚ) < 1 ∧ (255 : ℕ) ≤ 255) ∧
      ((∀ idx, idx < 1 * 1 * 4 →
          routeGaussianBlur (fun _ => 255) 1 1 1 idx = 255) ∧
        imgSum (routeGaussianBlur (fun _ => 255) 1 1 1) (1 * 1 * 4)
          = (imgSumN (fun _ => 255) (1 * 1 * 4) : ℤ)) :=
  ⟨⟨by norm_num, by norm_num⟩,
    route_gaussianBlur_const_exact 1 1 255 1 (by norm_num) (by norm_num)⟩

theorem routeKernel_getD_eq (i : ℕ) (hi : i < 11) :
    (routeKernel (14/10)).getD i 0
      = gauss1D (14/10) ((i : ℤ) - 5) / (routeKernelRaw (14/10)).sum := by
  unfold routeKernel
  rw [getD_map_div]
  congr 1
  unfold routeKernelRaw
  rw [getD_map_range _ _ i (by rw [gSize_c2]; exact hi), gHalf_c2]
  norm_num

theorem min_max_zero (a : ℤ) : min (max a 0) 0 = 0 :=
  min_eq_right (le_max_right a 0)

/-- The horizontal pass of the route blur on the 3×1 center-white image:
exactly one tap reads the white pixel, the one whose clamped coordinate
is 1. -/
theorem c2Route_temp (idx : ℕ) (hidx : idx < 12) :
    blurTemp c2Route 3 1 (routeKernel (14/10)) 5 idx
      = 255 * (routeKernel (14/10)).getD (6 - idx / 4) 0 := by
  interval_cases idx <;>
    (unfold blurTemp
     norm_num [c2Route, List.range_succ, min_def, max_def,
       show Int.toNat 2 = 2 from rfl])

/-- The vertical pass of the route blur on a 3×1 image reads each `temp`
cell back at its own index, so the output is the clamped rounding of
`temp·K` with `K = 1`. -/
theorem c2Route_out (idx : ℕ) (hidx : idx < 12) :
    routeGaussianBlur c2Route 3 1 (14/10) idx
      = clampU8 (jsRoundR (255 * (routeKernel (14/10)).getD (6 - idx / 4) 0)) := by
  unfold routeGaussianBlur blurOut
  rw [gHalf_c2]
  rw [if_pos (show idx < 3 * 1 * 4 from hidx)]
  have hone : ((List.range (2 * 5 + 1)).map
      (fun i => (routeKernel (14/10)).getD i 0)).sum = 1 := by
    have h := routeK_one (14/10)
    rwa [gHalf_c2] at h
  have hterm : ∀ i ∈ List.range (2 * 5 + 1),
      blurVAt c2Route 3 1 (routeKernel (14/10)) 5 (idx / 4 / 3) (idx / 4 % 3)
        (idx % 4) i
      = (255 * (routeKernel (14/10)).getD (6 - idx / 4) 0) *
          (routeKernel (14/10)).getD i 0 := by
    intro i _
    unfold blurVAt
    dsimp only
    have hy : idx / 4 / 3 = 0 := by omega
    rw [hy]
    rw [show (((1 : ℕ) : ℤ) - 1) = 0 from rfl, min_max_zero]
    simp only [zero_mul, zero_add, Int.toNat_natCast]
    rw [show idx / 4 % 3 * 4 + idx % 4 = idx from by omega]
    rw [c2Route_temp idx hidx]
  rw [List.map_congr_left hterm, sum_map_const_mul, hone, mul_one]

/-- A rounded, clamped store never exceeds the stored value by more than
half a unit. -/
theorem clampU8_round_le (V : ℝ) (hV : 0 ≤ V) :
    ((clampU8 (jsRoundR V) : ℤ) : ℝ) ≤ V + 1/2 := by
  unfold clampU8 jsRoundR
  have h1 : (0:ℤ) ≤ ⌊V + 1/2⌋ := Int.floor_nonneg.mpr (by linarith)
  rw [max_eq_right h1]
  have h3 : (min 255 ⌊V + 1/2⌋ : ℤ) ≤ ⌊V + 1/2⌋ := min_le_right _ _
  have h4 : ((⌊V + 1/2⌋ : ℤ) : ℝ) ≤ V + 1/2 := Int.floor_le _
  calc ((min 255 ⌊V + 1/2⌋ : ℤ) : ℝ) ≤ ((⌊V + 1/2⌋ : ℤ) : ℝ) := by
        exact_mod_cast h3
    _ ≤ V + 1/2 := h4

theorem gauss1D_zero : gauss1D (14/10) 0 = 1 := by
  unfold gauss1D
  norm_num

theorem gauss1D_pos (σ : ℚ) (k : ℤ) : 0 < gauss1D σ k := Real.exp_pos _

theorem gauss1D_neg_one : gauss1D (14/10) (-1) = gauss1D (14/10) 1 := by
  unfold gauss1D
  norm_num

theorem gauss1D_even (k : ℕ) :
    gauss1D (14/10) (-(k : ℤ)) = gauss1D (14/10) k := by
  unfold gauss1D
  norm_num

theorem gauss1D_one_le : gauss1D (14/10) 1 ≤ 1 := by
  unfold gauss1D
  calc Real.exp (-(((1 * 1 : ℤ) : ℝ)) / (2 * ((14/10 : ℚ) : ℝ) * ((14/10 : ℚ) : ℝ)))
      ≤ Real.exp 0 := by
        apply Real.exp_le_exp.mpr
        rw [div_nonpos_iff]
        right
        constructor
        · norm_num
        · positivity
    _ = 1 := Real.exp_zero

theorem gauss1D_two_ge : 1/9 ≤ gauss1D (14/10) 2 := by
  unfold gauss1D
  have hstep : Real.exp (-2) ≤ Real.exp (-(((2 * 2 : ℤ) : ℝ)) /
      (2 * ((14/10 : ℚ) : ℝ) * ((14/10 : ℚ) : ℝ))) := by
    apply Real.exp_le_exp.mpr
    have hc : ((14/10 : ℚ) : ℝ) = 7/5 := by norm_num
    rw [hc]
    norm_num
  have hexp2 : Real.exp 2 < 9 := by
    have h1 : Real.exp 2 = Real.exp 1 * Real.exp 1 := by
      rw [← Real.exp_add]
      norm_num
    nlinarith [Real.exp_one_lt_d9, Real.exp_pos 1]
  have hinv : (9 : ℝ)⁻¹ < (Real.exp 2)⁻¹ :=
    inv_lt_inv_of_lt (Real.exp_pos 2) hexp2
  rw [Real.exp_neg] at hstep
  calc (1/9 : ℝ) = (9 : ℝ)⁻¹ := by norm_num
    _ ≤ (Real.exp 2)⁻¹ := hinv.le
    _ ≤ _ := hstep

/-- The raw route kernel sum at `σ = 1.4`, written out over its eleven
samples. -/
theorem routeKernelRaw_sum_expand :
    (routeKernelRaw (14/10)).sum
      = gauss1D (14/10) 5 + gauss1D (14/10) 4 + gauss1D (14/10) 3 +
        gauss1D (14/10) 2 + gauss1D (14/10) 1 + gauss1D (14/10) 0 +
        gauss1D (14/10) 1 + gauss1D (14/10) 2 + gauss1D (14/10) 3 +
        gauss1D (14/10) 4 + gauss1D (14/10) 5 := by
  unfold routeKernelRaw
  rw [gSize_c2, gHalf_c2]
  rw [show List.range 11 = [0, 1, 2, 3, 4, 5, 6, 7, 8, 9, 10] from rfl]
  simp only [List.map_cons, List.map_nil, List.sum_cons, List.sum_nil]
  unfold gauss1D
  push_cast
  norm_num
  ring_nf

/-- The twelve output cells of the route blur on the 3×1 center-white
image sum to at most `1018 < 1020 - 3/2`: the taps that fall off the
white pixel redistribute `≥ 1020·(2·g2/S)` of its mass onto clamped
border reads that the output never recovers. -/
theorem c2_route_sum_le :
    (imgSum (routeGaussianBlur c2Route 3 1 (14/10)) 12 : ℝ) ≤ 1018 := by
  unfold imgSum
  rw [show List.range 12 = [0, 1, 2, 3, 4, 5, 6, 7, 8, 9, 10, 11] from rfl]
  simp only [List.map_cons, List.map_nil, List.sum_cons, List.sum_nil,
    add_zero]
  rw [c2Route_out 0 (by norm_num), c2Route_out 1 (by norm_num),
    c2Route_out 2 (by norm_num), c2Route_out 3 (by norm_num),
    c2Route_out 4 (by norm_num), c2Route_out 5 (by norm_num),
    c2Route_out 6 (by norm_num), c2Route_out 7 (by norm_num),
    c2Route_out 8 (by norm_num), c2Route_out 9 (by norm_num),
    c2Route_out 10 (by norm_num), c2Route_out 11 (by norm_num)]
  simp only [show (6 - 0 / 4 : ℕ) = 6 from rfl,
    show (6 - 1 / 4 : ℕ) = 6 from rfl, show (6 - 2 / 4 : ℕ) = 6 from rfl,
    show (6 - 3 / 4 : ℕ) = 6 from rfl, show (6 - 4 / 4 : ℕ) = 5 from rfl,
    show (6 - 5 / 4 : ℕ) = 5 from rfl, show (6 - 6 / 4 : ℕ) = 5 from rfl,
    show (6 - 7 / 4 : ℕ) = 5 from rfl, show (6 - 8 / 4 : ℕ) = 4 from rfl,
    show (6 - 9 / 4 : ℕ) = 4 from rfl, show (6 - 10 / 4 : ℕ) = 4 from rfl,
    show (6 - 11 / 4 : ℕ) = 4 from rfl]
  set S := (routeKernelRaw (14/10)).sum with hSdef
  have hS0 : 0 < S := routeKernelRaw_sum_pos (14/10)
  have hg6 : (routeKernel (14/10)).getD 6 0 = gauss1D (14/10) 1 / S := by
    rw [routeKernel_getD_eq 6 (by norm_num),
      show ((6 : ℕ) : ℤ) - 5 = (1 : ℤ) from by norm_num, ← hSdef]
  have hg5 : (routeKernel (14/10)).getD 5 0 = gauss1D (14/10) 0 / S := by
    rw [routeKernel_getD_eq 5 (by norm_num),
      show ((5 : ℕ) : ℤ) - 5 = (0 : ℤ) from by norm_num, ← hSdef]
  have hg4 : (routeKernel (14/10)).getD 4 0 = gauss1D (14/10) 1 / S := by
    rw [routeKernel_getD_eq 4 (by norm_num),
      show ((4 : ℕ) : ℤ) - 5 = (-1 : ℤ) from by norm_num, gauss1D_neg_one,
      ← hSdef]
  have hk6 : 0 ≤ (255 : ℝ) * (routeKernel (14/10)).getD 6 0 := by
    have := routeKernel_getD_nonneg (14/10) 6
    positivity
  have hk5 : 0 ≤ (255 : ℝ) * (routeKernel (14/10)).getD 5 0 := by
    have := routeKernel_getD_nonneg (14/10) 5
    positivity
  have hk4 : 0 ≤ (255 : ℝ) * (routeKernel (14/10)).getD 4 0 := by
    have := routeKernel_getD_nonneg (14/10) 4
    positivity
  have hb6 := clampU8_round_le _ hk6
  have hb5 := clampU8_round_le _ hk5
  have hb4 := clampU8_round_le _ hk4
  rw [hg6] at hb6
  rw [hg5] at hb5
  rw [hg4] at hb4
  have hG0 : gauss1D (14/10) 0 = 1 := gauss1D_zero
  have hG1le : gauss1D (14/10) 1 ≤ 1 := gauss1D_one_le
  have hG1pos : 0 < gauss1D (14/10) 1 := gauss1D_pos _ _
  have hG2ge : 1/9 ≤ gauss1D (14/10) 2 := gauss1D_two_ge
  have hG3 : 0 < gauss1D (14/10) 3 := gauss1D_pos _ _
  have hG4 : 0 < gauss1D (14/10) 4 := gauss1D_pos _ _
  have hG5 : 0 < gauss1D (14/10) 5 := gauss1D_pos _ _
  have hkey : 1020 * (gauss1D (14/10) 0 / S)
      + 2040 * (gauss1D (14/10) 1 / S) ≤ 1012 := by
    have hnum : 1020 * gauss1D (14/10) 0 + 2040 * gauss1D (14/10) 1
        ≤ 1012 * S := by
      rw [routeKernelRaw_sum_expand] at hSdef
      rw [hG0, hSdef]
      linarith
    have hdiv : (1020 * gauss1D (14/10) 0 + 2040 * gauss1D (14/10) 1) / S
        ≤ 1012 := (div_le_iff hS0).mpr (by linarith)
    rw [add_div, mul_div_assoc, mul_div_assoc] at hdiv
    exact hdiv
  rw [hg6, hg5, hg4]
  push_cast
  linarith

/-- **C2 (counterexample).**  Neither Gaussian blur is mass-preserving to
within `±0.5·w·h`.  (i) image-processor.ts on a 1×1 all-white RGBA image
at the default `σ = 1.4`: the separable passes index the flattened
`kernelSize²`-normalized 2-D table as a 1-D kernel, so the weights they
read sum to `K ≤ 11·exp(-625/98)` and every output channel is
`round(255·K²) = 0` — the output sum is 0 against an input sum of 1020
(the loss also exceeds the more generous per-channel budget
`0.5·w·h·4 = 2`).  (ii) the API route's 1-D blur on a 3×1 image whose
center pixel is white: border clamping sends the off-pixel taps to the
black border pixels, the twelve output cells sum to at most 1018, and
`1020 - 1018 = 2 > 1.5 = 0.5·w·h` (the proved bound `≤ 1018` also
violates the per-channel budget `0.5·w·h·4 = 6`). -/
theorem gaussianBlur_not_mass_preserving :
    ¬ (|(imgSum (ipGaussianBlur c2Const 1 1 (14/10)) (1 * 1 * 4) : ℝ)
        - (imgSumN c2Const (1 * 1 * 4) : ℝ)| ≤ 1/2 * (1 * 1)) ∧
    ¬ (|(imgSum (routeGaussianBlur c2Route 3 1 (14/10)) (3 * 1 * 4) : ℝ)
        - (imgSumN c2Route (3 * 1 * 4) : ℝ)| ≤ 1/2 * (3 * 1)) := by
  constructor
  · intro hcon
    rw [show (1 * 1 * 4 : ℕ) = 4 from rfl] at hcon
    rw [c2_ip_sum, show imgSumN c2Const 4 = 1020 from by decide] at hcon
    norm_num at hcon
  · intro hcon
    rw [show (3 * 1 * 4 : ℕ) = 12 from rfl] at hcon
    rw [show imgSumN c2Route 12 = 1020 from by decide] at hcon
    have h1 := c2_route_sum_le
    have habs := le_abs_self ((1020 : ℝ)
      - (imgSum (routeGaussianBlur c2Route 3 1 (14/10)) 12 : ℝ))
    rw [abs_sub_comm] at habs
    push_cast at hcon
    linarith

-- ============================================================================
-- Edge detection (image-processor.ts grayscale, medianFilter, the four
-- gradient operators, non-maximum suppression, double threshold with
-- hysteresis, canny, and the detectEdges dispatcher)
-- ============================================================================

/-- `toGrayscale`: `Math.round(0.299·r + 0.587·g + 0.114·b)`. -/
def toGrayscale (c : Color) : ℤ :=
  jsRound ((299/1000 : ℚ) * c.r + (587/1000 : ℚ) * c.g + (114/1000 : ℚ) * c.b)

/-- `grayscale` of image-processor.ts: one `Uint8ClampedArray` cell per
pixel, `toGrayscale` of its RGBA quadruple. -/
def grayscale (data : ℕ → ℕ) (w h : ℕ) : ℕ → ℕ :=
  fun p =>
    if p < w * h then
      (clampU8 (toGrayscale
        ⟨data (p * 4), data (p * 4 + 1), data (p * 4 + 2),
          data (p * 4 + 3)⟩)).toNat
    else 0

/-- `medianFilter` of image-processor.ts (default 3×3 window): r/g/b
channels become the median of the clamped window, the alpha channel is
passed through.  JS sorts with `(a, b) => a - b` (ascending); over
natural values insertion sort produces the same (unique) sorted list. -/
def medianFilter (data : ℕ → ℕ) (w h : ℕ) (kernelSize : ℕ := 3) : ℕ → ℕ :=
  fun idx =>
    if idx < w * h * 4 then
      let c := idx % 4
      let p := idx / 4
      let x := p % w
      let y := p / w
      if c = 3 then data (p * 4 + 3)
      else
        let halfKernel := kernelSize / 2
        let vals := (List.range (2 * halfKernel + 1)).flatMap (fun (ky : ℕ) =>
          (List.range (2 * halfKernel + 1)).map (fun (kx : ℕ) =>
            let yy : ℤ := min (max ((y : ℤ) + ((ky : ℤ) - halfKernel)) 0)
              ((h : ℤ) - 1)
            let xx : ℤ := min (max ((x : ℤ) + ((kx : ℤ) - halfKernel)) 0)
              ((w : ℤ) - 1)
            data ((yy * w + xx).toNat * 4 + c)))
        (vals.insertionSort (· ≤ ·)).getD (vals.length / 2) 0
    else 0

/-- Source `GradientData` (Float32Arrays become real-valued maps). -/
structure GradientData where
  magnitude : ℕ → ℝ
  direction : ℕ → ℝ
  width : ℕ
  height : ℕ

/-- JS `Math.atan2(y, x)`; the signed-zero corner cases of IEEE atan2
cannot arise here because the arguments are exact integer gradients. -/
noncomputable def jsAtan2 (y x : ℝ) : ℝ :=
  if 0 < x then Real.arctan (y / x)
  else if x < 0 then
    (if 0 ≤ y then Real.arctan (y / x) + Real.pi
     else Real.arctan (y / x) - Real.pi)
  else
    (if 0 < y then Real.pi / 2 else if y < 0 then -(Real.pi / 2) else 0)

/-- 3×3 convolution at interior pixel `(x, y)`:
`Σ gray[(y+ky)·w + (x+kx)] · kernel[(ky+1)·3 + (kx+1)]` (here the loop
indices are shifted by one). -/
def conv3 (gray : ℕ → ℕ) (w : ℕ) (kernel : List ℤ) (x y : ℕ) : ℤ :=
  ((List.range 3).flatMap (fun (ky : ℕ) =>
    (List.range 3).map (fun (kx : ℕ) =>
      (gray ((((y : ℤ) + ((ky : ℤ) - 1)).toNat) * w +
        (((x : ℤ) + ((kx : ℤ) - 1)).toNat)) : ℤ) *
        kernel.getD (ky * 3 + kx) 0))).sum

def sobelX : List ℤ := [-1, 0, 1, -2, 0, 2, -1, 0, 1]

def sobelY : List ℤ := [-1, -2, -1, 0, 0, 0, 1, 2, 1]

def prewittX : List ℤ := [-1, 0, 1, -1, 0, 1, -1, 0, 1]

def prewittY : List ℤ := [-1, -1, -1, 0, 0, 0, 1, 1, 1]

def laplacianK : List ℤ := [0, 1, 0, 1, -4, 1, 0, 1, 0]

/-- `sobelEdgeDetection`: interior magnitudes `√(gx² + gy²)` and
directions `atan2(gy, gx)`; the Float32Arrays stay 0 elsewhere. -/
noncomputable def sobelEdgeDetection (data : ℕ → ℕ) (w h : ℕ) :
    GradientData :=
  let gray := grayscale data w h
  { magnitude := fun idx =>
      if 1 ≤ idx % w ∧ idx % w < w - 1 ∧ 1 ≤ idx / w ∧ idx / w < h - 1 then
        Real.sqrt (((conv3 gray w sobelX (idx % w) (idx / w)) *
            (conv3 gray w sobelX (idx % w) (idx / w)) +
          (conv3 gray w sobelY (idx % w) (idx / w)) *
            (conv3 gray w sobelY (idx % w) (idx / w)) : ℤ) : ℝ)
      else 0,
    direction := fun idx =>
      if 1 ≤ idx % w ∧ idx % w < w - 1 ∧ 1 ≤ idx / w ∧ idx / w < h - 1 then
        jsAtan2 ((conv3 gray w sobelY (idx % w) (idx / w) : ℤ) : ℝ)
          ((conv3 gray w sobelX (idx % w) (idx / w) : ℤ) : ℝ)
      else 0,
    width := w, height := h }

/-- `prewittEdgeDetection` (same shape as Sobel with Prewitt kernels). -/
noncomputable def prewittEdgeDetection (data : ℕ → ℕ) (w h : ℕ) :
    GradientData :=
  let gray := grayscale data w h
  { magnitude := fun idx =>
      if 1 ≤ idx % w ∧ idx % w < w - 1 ∧ 1 ≤ idx / w ∧ idx / w < h - 1 then
        Real.sqrt (((conv3 gray w prewittX (idx % w) (idx / w)) *
            (conv3 gray w prewittX (idx % w) (idx / w)) +
          (conv3 gray w prewittY (idx % w) (idx / w)) *
            (conv3 gray w prewittY (idx % w) (idx / w)) : ℤ) : ℝ)
      else 0,
    direction := fun idx =>
      if 1 ≤ idx % w ∧ idx % w < w - 1 ∧ 1 ≤ idx / w ∧ idx / w < h - 1 then
        jsAtan2 ((conv3 gray w prewittY (idx % w) (idx / w) : ℤ) : ℝ)
          ((conv3 gray w prewittX (idx % w) (idx / w) : ℤ) : ℝ)
      else 0,
    width := w, height := h }

/-- `robertsEdgeDetection`: 2×2 Roberts cross over `0 ≤ x < w-1`,
`0 ≤ y < h-1`. -/
noncomputable def robertsEdgeDetection (data : ℕ → ℕ) (w h : ℕ) :
    GradientData :=
  let gray := grayscale data w h
  { magnitude := fun idx =>
      if idx % w < w - 1 ∧ idx / w < h - 1 then
        Real.sqrt ((((gray idx : ℤ) - gray ((idx / w + 1) * w + idx % w + 1)) *
            ((gray idx : ℤ) - gray ((idx / w + 1) * w + idx % w + 1)) +
          ((gray (idx / w * w + idx % w + 1) : ℤ) -
              gray ((idx / w + 1) * w + idx % w)) *
            ((gray (idx / w * w + idx % w + 1) : ℤ) -
              gray ((idx / w + 1) * w + idx % w)) : ℤ) : ℝ)
      else 0,
    direction := fun idx =>
      if idx % w < w - 1 ∧ idx / w < h - 1 then
        jsAtan2 (((gray (idx / w * w + idx % w + 1) : ℤ) -
            gray ((idx / w + 1) * w + idx % w) : ℤ) : ℝ)
          (((gray idx : ℤ) - gray ((idx / w + 1) * w + idx % w + 1) : ℤ) : ℝ)
      else 0,
    width := w, height := h }

/-- `laplacianEdgeDetection`: interior `|Σ gray·kernel|`, direction 0. -/
noncomputable def laplacianEdgeDetection (data : ℕ → ℕ) (w h : ℕ) :
    GradientData :=
  let gray := grayscale data w h
  { magnitude := fun idx =>
      if 1 ≤ idx % w ∧ idx % w < w - 1 ∧ 1 ≤ idx / w ∧ idx / w < h - 1 then
        ((|conv3 gray w laplacianK (idx % w) (idx / w)| : ℤ) : ℝ)
      else 0,
    direction := fun _ => 0,
    width := w, height := h }

/-- JS `a % b` for a nonnegative real dividend and positive divisor
(the only case reached: the quantized NMS angle is in `[0, 8]`). -/
noncomputable def jsFmod (a b : ℝ) : ℝ := a - b * ⌊a / b⌋

/-- `nonMaximumSuppression`: quantize the gradient direction to 4
axes and keep interior magnitudes that dominate both neighbors. -/
noncomputable def nonMaximumSuppression (g : GradientData) : ℕ → ℝ :=
  fun idx =>
    let w := g.width
    let x := idx % w
    let y := idx / w
    if 1 ≤ x ∧ x < w - 1 ∧ 1 ≤ y ∧ y < g.height - 1 then
      let angle := g.direction idx
      let mag := g.magnitude idx
      let quantized := jsFmod ((angle + Real.pi) / (Real.pi / 4)) 8
      let dir := ⌊quantized + 1/2⌋ % 4
      let n1n2 : ℝ × ℝ :=
        if dir = 0 then (g.magnitude (idx - 1), g.magnitude (idx + 1))
        else if dir = 1 then
          (g.magnitude ((y - 1) * w + (x + 1)),
           g.magnitude ((y + 1) * w + (x - 1)))
        else if dir = 2 then
          (g.magnitude ((y - 1) * w + x), g.magnitude ((y + 1) * w + x))
        else if dir = 3 then
          (g.magnitude ((y - 1) * w + (x - 1)),
           g.magnitude ((y + 1) * w + (x + 1)))
        else (0, 0)
      if n1n2.1 ≤ mag ∧ n1n2.2 ≤ mag then mag else 0
    else 0

/-- The thresholding stage of `doubleThreshold`: `STRONG = 255` at or
above the high threshold, `WEAK = 50` at or above the low one. -/
noncomputable def doubleThresholdInit (suppressed : ℕ → ℝ) (n : ℕ)
    (low high : ℚ) : ℕ → ℕ :=
  fun i =>
    if i < n then
      if (high : ℝ) ≤ suppressed i then 255
      else if (low : ℝ) ≤ suppressed i then 50
      else 0
    else 0

/-- One scan step of the hysteresis sweep: promote a WEAK pixel with a
STRONG 8-neighbor (the source also checks the center cell itself, which
is WEAK and therefore never triggers). -/
def hysteresisStep (w : ℕ) (st : (ℕ → ℕ) × Bool) (pq : ℕ × ℕ) :
    (ℕ → ℕ) × Bool :=
  let y := pq.1
  let x := pq.2
  let idx := y * w + x
  if st.1 idx = 50 then
    let hasStrong := ((List.range 3).flatMap (fun (ky : ℕ) =>
      (List.range 3).map (fun (kx : ℕ) => (y - 1 + ky) * w + (x - 1 + kx)))).any
      (fun j => decide (st.1 j = 255))
    if hasStrong then (Function.update st.1 idx 255, true) else st
  else st

/-- The `while (changed)` hysteresis loop as fuel recursion.  Each pass
either reports no change (and the loop stops) or promotes at least one of
the at most `w·h` WEAK pixels to STRONG, so `w·h + 1` passes dominate the
source loop. -/
def hysteresisLoop (w h : ℕ) : ℕ → (ℕ → ℕ) → (ℕ → ℕ)
  | 0, res => res
  | fuel + 1, res =>
      let st := (interiorCoords w h).foldl (hysteresisStep w) (res, false)
      if st.2 then hysteresisLoop w h fuel st.1 else st.1

/-- `doubleThreshold`: threshold, hysteresis, then clear remaining WEAK
pixels. -/
noncomputable def doubleThreshold (suppressed : ℕ → ℝ) (w h : ℕ)
    (low high : ℚ) : ℕ → ℕ :=
  let res := hysteresisLoop w h (w * h + 1)
    (doubleThresholdInit suppressed (w * h) low high)
  fun i => if res i = 50 then 0 else res i

/-- `cannyEdgeDetection`: the buggy image-processor Gaussian blur, Sobel
gradients, non-maximum suppression, double threshold. -/
noncomputable def cannyEdgeDetection (data : ℕ → ℕ) (w h : ℕ)
    (low high σ : ℚ) : ℕ → ℕ :=
  let blurred := fun i => (ipGaussianBlur data w h σ i).toNat
  let gradient := sobelEdgeDetection blurred w h
  let suppressed := nonMaximumSuppression gradient
  doubleThreshold suppressed w h low high

/-- The per-branch normalization block of `detectEdges`
(`maxMag = Math.max(...magnitude)`, `result[i] = min(255,
Math.round(magnitude[i] * 255 / maxMag))`), repeated verbatim by the
source in the sobel, prewitt, roberts and laplacian cases.  `Math.max`
over the nonnegative magnitudes is a fold with neutral 0; if every
magnitude is 0 the JS store of `round(0·Infinity) = NaN` into the
`Uint8ClampedArray` also yields 0, matching `0·(255/0) = 0` here. -/
noncomputable def normalizeGradient (g : GradientData) : ℕ → ℕ :=
  let n := g.width * g.height
  let maxMag := ((List.range n).map g.magnitude).foldl max 0
  fun i =>
    if i < n then
      (clampU8 (min 255 (jsRoundR (g.magnitude i * (255 / maxMag))))).toNat
    else 0

/-- Source `EdgeDetectionOptions` with the defaults destructured at the
top of `detectEdges`; `method` is a runtime string (callers outside the
TypeScript type can pass any selector). -/
structure EdgeDetectionOptions where
  method : String
  lowThreshold : ℚ := 50
  highThreshold : ℚ := 150
  gaussianBlur : ℚ := 14/10
  applyNoiseReduction : Bool := true

/-- `detectEdges` of image-processor.ts: optional median pre-filter, then
the `switch (method)` whose default throws the unknown-method error. -/
noncomputable def detectEdges (data : ℕ → ℕ) (w h : ℕ)
    (options : EdgeDetectionOptions) : Except String (ℕ → ℕ) :=
  let processed :=
    if options.applyNoiseReduction then medianFilter data w h 3 else data
  if options.method = "canny" then
    .ok (cannyEdgeDetection processed w h options.lowThreshold
      options.highThreshold options.gaussianBlur)
  else if options.method = "sobel" then
    .ok (normalizeGradient (sobelEdgeDetection processed w h))
  else if options.method = "prewitt" then
    .ok (normalizeGradient (prewittEdgeDetection processed w h))
  else if options.method = "roberts" then
    .ok (normalizeGradient (robertsEdgeDetection processed w h))
  else if options.method = "laplacian" then
    .ok (normalizeGradient (laplacianEdgeDetection processed w h))
  else .error ("Unknown edge detection method: " ++ options.method)

/-- **C7 (counterexample).**  The claim's enumerated sets are wrong on
both sides: `detectEdges` throws the unknown-method error on
`'skeleton'` (its switch handles only canny/sobel/prewitt/roberts/
laplacian), and `detectContours` throws on `'edge-chain'` (it handles
only moore/suzuki/marching-squares). -/
theorem detect_unknown_method_counterexample :
    detectEdges (fun _ => 0) 1 1 { method := "skeleton" }
      = .error "Unknown edge detection method: skeleton" ∧
    detectContours (fun _ => 0) 1 1 { method := "edge-chain" }
      = .error "Unknown contour detection method: edge-chain" := by
  constructor
  · rfl
  · rfl

/-- **C7 (amended).**  For every input and selector string: edge
detection succeeds exactly for `method ∈ {canny, sobel, prewitt, roberts,
laplacian}` and contour detection succeeds exactly for
`method ∈ {moore, suzuki, marching-squares}`; every other selector —
including the claim's `'skeleton'` and `'edge-chain'` — produces the
unknown-method error. -/
theorem detect_method_dispatch_spec (data : ℕ → ℕ) (w h : ℕ)
    (eo : EdgeDetectionOptions) (co : ContourDetectionOptions) :
    ((detectEdges data w h eo).isOk = true ↔
      eo.method ∈ ["canny", "sobel", "prewitt", "roberts", "laplacian"]) ∧
    ((detectContours data w h co).isOk = true ↔
      co.method ∈ ["moore", "suzuki", "marching-squares"]) ∧
    ((detectEdges data w h eo
        = .error ("Unknown edge detection method: " ++ eo.method)) ↔
      eo.method ∉ ["canny", "sobel", "prewitt", "roberts", "laplacian"]) ∧
    ((detectContours data w h co
        = .error ("Unknown contour detection method: " ++ co.method)) ↔
      co.method ∉ ["moore", "suzuki", "marching-squares"]) := by
  refine ⟨?_, ?_, ?_, ?_⟩
  · unfold detectEdges
    split_ifs <;> simp_all [Except.isOk, Except.toBool]
  · unfold detectContours
    split_ifs <;> simp_all [Except.isOk, Except.toBool, Except.map]
  · unfold detectEdges
    split_ifs <;> simp_all
  · unfold detectContours
    split_ifs <;> simp_all [Except.map]

end CadToSvg
